import Mathlib

/-!
Verification of the schema-driven dynamic grid engine of the `ankiety`
repository against its natural-language specification.

The development shallowly embeds:
* the client-side Format Codec, validation, serialization, save gating and
  dynamic-row logic of `src/frontend/script.js`;
* the server-side Cell Model, Cell Populator and row construction of
  `src/sql_year/b_kolumny_select_where_podtabela.sql` (a Go source file).

JavaScript strings are modelled as `List Char`; JavaScript numbers are
modelled as `ℚ` (the exact values the decimal algorithms manipulate);
JSON numeric literals on the Go side are modelled as scaled decimals.
All definitions are executable.
-/

namespace Ankiety

/-! ### Character and digit primitives -/

/-- The decimal digit character for `n` (defined for `n < 10`; clamped at `'9'`). -/
def digitChar : ℕ → Char
  | 0 => '0' | 1 => '1' | 2 => '2' | 3 => '3' | 4 => '4'
  | 5 => '5' | 6 => '6' | 7 => '7' | 8 => '8' | _ => '9'

/-- Numeric value of a decimal digit character. -/
def charVal (c : Char) : ℕ := c.toNat - 48

/-- Decimal digit string of a natural number, most significant digit first. -/
def natToDigits (n : ℕ) : List Char :=
  if _h : n < 10 then [digitChar n]
  else natToDigits (n / 10) ++ [digitChar (n % 10)]
decreasing_by exact Nat.div_lt_self (by omega) (by omega)

/-- Read a decimal digit string back as a natural number. -/
def digitsToNat (cs : List Char) : ℕ :=
  cs.foldl (fun a c => 10 * a + charVal c) 0

/-- Decimal string of an integer, with a leading `'-'` for negatives
(the rendering of JavaScript `Number.prototype.toString` on integers
and of Go `strconv.FormatInt`). -/
def intRepr (m : ℤ) : List Char :=
  (if m < 0 then ['-'] else []) ++ natToDigits m.natAbs

/-- Left-pad a digit string with `'0'` up to width `d`. -/
def leftPadZeros (d : ℕ) (cs : List Char) : List Char :=
  List.replicate (d - cs.length) '0' ++ cs

/-! ### Format Codec (`src/frontend/script.js`)

`number_format_parse`, `number_format_value`, `number_value_parse`,
`string_is_blank`, `string_format_pattern`, `validate_string_pattern`. -/

/-- Parsed display format mask: thousands grouping and decimal digit count. -/
structure NumberFormat where
  has_spaces : Bool
  decimals : ℕ
deriving Repr, DecidableEq

/-- Replace the first occurrence of character `a` by `b`
(JavaScript `String.prototype.replace` with a string pattern). -/
def replaceFirst (a b : Char) : List Char → List Char
  | [] => []
  | c :: cs => if c = a then b :: cs else c :: replaceFirst a b cs

/-- Split on every occurrence of `sep` (JavaScript `String.prototype.split`). -/
def splitOnChar (sep : Char) : List Char → List (List Char)
  | [] => [[]]
  | c :: cs =>
    if c = sep then [] :: splitOnChar sep cs
    else
      match splitOnChar sep cs with
      | [] => [[c]]
      | p :: ps => (c :: p) :: ps

/-- `number_format_parse(format)`: `has_spaces` iff the mask contains a space;
`decimals` is the length of the part after the first `'.'`, else after the
first `','`, else `0`. -/
def number_format_parse (format : List Char) : NumberFormat :=
  let has_spaces := format.contains ' '
  let decimal_part :=
    if format.contains '.' then ((splitOnChar '.' format).get? 1).getD []
    else if format.contains ',' then ((splitOnChar ',' format).get? 1).getD []
    else []
  ⟨has_spaces, decimal_part.length⟩

/-- JavaScript `Math.round v`: round half toward positive infinity. -/
def jsRound (v : ℚ) : ℤ := ⌊v + 1 / 2⌋

/-- JavaScript `v.toFixed d` for `d > 0` (ECMA-262 `Number.prototype.toFixed`):
the sign is taken first, then the magnitude is rounded half-up at `d`
decimal digits and printed with exactly `d` digits after `'.'`. -/
def toFixedChars (v : ℚ) (d : ℕ) : List Char :=
  let n : ℕ := (jsRound (|v| * 10 ^ d)).toNat
  (if v < 0 then ['-'] else []) ++
    natToDigits (n / 10 ^ d) ++ '.' :: leftPadZeros d (natToDigits (n % 10 ^ d))

/-- Test whether a character list starts with `'-'`. -/
def startsWithDash (cs : List Char) : Bool := cs.headD ' ' = '-'

/-- Insert a space between every group of three characters, counted from the
right (the effect of the `/\B(?=(\d{3})+(?!\d))/g` replacement on an
all-digit string), acting on the reversed list. -/
def groupThreesAux (l : List Char) : List Char :=
  if _h : l.length ≤ 3 then l
  else l.take 3 ++ ' ' :: groupThreesAux (l.drop 3)
termination_by l.length
decreasing_by simp only [List.length_drop]; omega

/-- Thousands grouping: digit groups of three from the right, space separated. -/
def groupThrees (cs : List Char) : List Char :=
  (groupThreesAux cs.reverse).reverse

/-- `number_format_value(value, fmt)`: render with comma as decimal separator
and, when `fmt.has_spaces`, with space-grouped integer digits keeping a
leading minus sign outside the grouping. -/
def number_format_value (value : ℚ) (fmt : NumberFormat) : List Char :=
  let result :=
    if fmt.decimals = 0 then intRepr (jsRound value)
    else toFixedChars value fmt.decimals
  let result := replaceFirst '.' ',' result
  if fmt.has_spaces then
    let parts := splitOnChar ',' result
    let int_part := parts.headD []
    let dec_part := parts.get? 1
    let is_negative := startsWithDash int_part
    let abs_int := if is_negative then int_part.tail else int_part
    let spaced := groupThrees abs_int
    (if is_negative then ['-'] else []) ++ spaced ++
      (match dec_part with
       | some dp => if dp.isEmpty then [] else ',' :: dp
       | none => [])
  else result

/-- The decimal-literal core of JavaScript `parseFloat`: optional sign,
integer digits, optional `'.'` and fraction digits; anything after the
parsed prefix is ignored; no digits at all is `NaN` (`none`).  Exponent
forms never arise here: number inputs filter typed characters to digits,
comma and minus before parsing. -/
def parseFloatQ (cs : List Char) : Option ℚ :=
  let neg := cs.headD ' ' = '-'
  let rest := if cs.headD ' ' = '-' || cs.headD ' ' = '+' then cs.tail else cs
  let ds1 := rest.takeWhile Char.isDigit
  let rest2 := rest.dropWhile Char.isDigit
  let ds2 :=
    if rest2.headD ' ' = '.' then rest2.tail.takeWhile Char.isDigit else []
  if ds1.isEmpty ∧ ds2.isEmpty then none
  else
    let mag : ℚ := (digitsToNat ds1 : ℚ) + (digitsToNat ds2 : ℚ) / 10 ^ ds2.length
    some (if neg then -mag else mag)

/-- `number_value_parse(value)`: strip all whitespace, map the first comma to
a dot, reject `""`, `"-"`, `"."`, then `parseFloat`. -/
def number_value_parse (value : List Char) : Option ℚ :=
  let raw := replaceFirst ',' '.' (value.filter fun c => !c.isWhitespace)
  if raw = [] ∨ raw = ['-'] ∨ raw = ['.'] then none
  else parseFloatQ raw

/-- `string_is_blank(value)`: true when nothing remains after deleting all
whitespace, commas, dots and dashes. -/
def string_is_blank (value : List Char) : Bool :=
  (value.filter fun c => !(c.isWhitespace || c = ',' || c = '.' || c = '-')).isEmpty

/-- Loop body of `string_format_pattern`: emit at most eight digits, with a
dash before every even-positioned digit after the first. -/
def sfpGo : List Char → ℕ → List Char
  | [], _ => []
  | d :: ds, i =>
    if i < 8 then
      (if 0 < i ∧ i % 2 = 0 then ['-'] else []) ++ d :: sfpGo ds (i + 1)
    else []

/-- `string_format_pattern(value)`: keep only digits, cap at eight, group in
pairs separated by dashes. -/
def string_format_pattern (value : List Char) : List Char :=
  sfpGo (value.filter Char.isDigit) 0

/-- The whitelist of dash-grouped digit shapes accepted by
`validate_string_pattern`: group lengths after splitting on `'-'`.
These encode the regexes `^\d{1}$`, `^\d{2}$`, `^\d{2}-\d{2}$`,
`^\d{2}-\d{2}-\d{2}$`, `^\d{2}-\d{2}-\d{2}-\d{2}$`. -/
def stringPatternShapes : List (List ℕ) :=
  [[1], [2], [2, 2], [2, 2, 2], [2, 2, 2, 2]]

/-- `validate_string_pattern(value, format)`: the untyped mask `"$"` disables
checking; otherwise the empty string or any whitelisted dash-grouped digit
shape is accepted. -/
def validate_string_pattern (value format : List Char) : Bool :=
  if format = ['$'] then true
  else
    let groups := splitOnChar '-' value
    value = [] ∨
      ((groups.all fun g => g.all Char.isDigit) ∧
        stringPatternShapes.contains (groups.map List.length))

/-! ### Client cell model (`src/frontend/script.js`)

One `Cell` mirrors a `[data-cell]` wrapper: its `.number-input` and
`.string-input` elements, enum widgets (`[data-enum-container]` with a
visible `[data-enum-input]` and a hidden `[data-enum-value]`) and
multi-exclusive widgets (`[data-multi-exclusive-container]` with a hidden
`[data-multi-exclusive-value]`).  The pair stored in `errorMark` models
`dataset.errorMessage` / `dataset.errorType` written by `input_show_error`
and deleted by `input_clear_error`; `validate_number_required` reads the
same `dataset.errorMessage` slot as its custom message, and the embedding
preserves that aliasing. -/

/-- JavaScript `String.prototype.trim`. -/
def trimChars (cs : List Char) : List Char :=
  ((cs.dropWhile Char.isWhitespace).reverse.dropWhile Char.isWhitespace).reverse

/-- `pat` is a leading segment of `l`. -/
def listStartsWith {α : Type} [DecidableEq α] : List α → List α → Bool
  | [], _ => true
  | _ :: _, [] => false
  | p :: ps, x :: xs => p = x && listStartsWith ps xs

/-- `pat` occurs contiguously inside `l` (substring containment). -/
def listContainsSeq {α : Type} [DecidableEq α] (pat : List α) : List α → Bool
  | [] => pat.isEmpty
  | x :: xs => listStartsWith pat (x :: xs) || listContainsSeq pat xs

/-- `pat` is a trailing segment of `l`. -/
def listEndsWith {α : Type} [DecidableEq α] (pat l : List α) : Bool :=
  listStartsWith pat.reverse l.reverse

structure NumberInput where
  name : String
  value : List Char
  readonly : Bool
  required : Bool
  format : Option (List Char)
  min : Option ℚ
  max : Option ℚ
  errorMark : Option (List Char × List Char) := none
deriving DecidableEq, Repr

structure StringInput where
  name : String
  value : List Char
  readonly : Bool
  required : Bool
  format : Option (List Char)
  errorMark : Option (List Char × List Char) := none
deriving DecidableEq, Repr

structure EnumField where
  name : String
  hiddenValue : List Char
  visibleReadonly : Bool
  required : Bool
  errorMark : Option (List Char × List Char) := none
deriving DecidableEq, Repr

structure MultiField where
  name : String
  value : List Char
  required : Bool
  errorMark : Option (List Char × List Char) := none
deriving DecidableEq, Repr

structure Cell where
  numbers : List NumberInput := []
  strings : List StringInput := []
  enums : List EnumField := []
  multis : List MultiField := []
deriving DecidableEq, Repr

/-- `validate_number_value(input)`: blank raw text is fine; otherwise parse
and check the inclusive min/max bounds, formatting bound values with the
field's own display mask. -/
def validate_number_value (i : NumberInput) : Option (List Char) :=
  let raw := trimChars i.value
  if string_is_blank raw then none
  else
    let value := number_value_parse raw
    let fmt := number_format_parse (i.format.getD ['#', '#', '#', '0'])
    match value with
    | none => some "Nieprawidłowy format liczby".toList
    | some v =>
      let maxCheck : Option (List Char) :=
        match i.max with
        | some mx =>
          if mx < v then
            some ("Wartość musi być co najwyżej ".toList ++ number_format_value mx fmt)
          else none
        | none => none
      match i.min with
      | some mn =>
        if v < mn then
          some ("Wartość musi być co najmniej ".toList ++ number_format_value mn fmt)
        else maxCheck
      | none => maxCheck

/-- `validate_number_required(input)`: a required blank field errors with the
custom message override (`dataset.errorMessage`) when present and non-empty. -/
def validate_number_required (i : NumberInput) : Option (List Char) :=
  let raw := trimChars i.value
  if i.required && string_is_blank raw then
    some (match i.errorMark with
          | some (msg, _) => if msg.isEmpty then "To pole jest wymagane".toList else msg
          | none => "To pole jest wymagane".toList)
  else validate_number_value i

/-- `input_format_error_get(input)`: a `'#'`-bearing mask (other than absent,
empty or the `"$"` sentinel) triggers the dash-grouped shape check on a
non-empty value. -/
def input_format_error_get (i : StringInput) : Option (List Char) :=
  match i.format with
  | none => none
  | some f =>
    if f.isEmpty || f = ['$'] then none
    else if f.contains '#' then
      if !i.value.isEmpty && !validate_string_pattern i.value f then
        some "Nieprawidłowy format (np. 12, 12-34, 12-34-56)".toList
      else none
    else none

/-- `validate_string_required(input)`. -/
def validate_string_required (i : StringInput) : Option (List Char) :=
  if i.required && (trimChars i.value).isEmpty then
    some "To pole jest wymagane".toList
  else input_format_error_get i

/-- `validate_enum_required(container)`: a required enum needs a committed
hidden backing value. -/
def validate_enum_required (e : EnumField) : Option (List Char) :=
  if e.required && e.hiddenValue.isEmpty then some "Wybierz wartość z listy".toList
  else none

/-- `validate_multi_exclusive_required(container)`. -/
def validate_multi_exclusive_required (m : MultiField) : Option (List Char) :=
  if m.required && m.value.isEmpty then some "Wybierz co najmniej jedną opcję".toList
  else none

/-- `row_cells_has_data(cells)`: some non-readonly number or string input, an
enum whose visible input is not readonly, or any multi-exclusive hidden
value carries non-whitespace text. -/
def row_cells_has_data (cells : List Cell) : Bool :=
  cells.any fun cell =>
    (cell.numbers.any fun i => !i.readonly && !(trimChars i.value).isEmpty) ||
    (cell.strings.any fun i => !i.readonly && !(trimChars i.value).isEmpty) ||
    (cell.enums.any fun e => !e.visibleReadonly && !(trimChars e.hiddenValue).isEmpty) ||
    (cell.multis.any fun m => !(trimChars m.value).isEmpty)

/-- `row_cells_clear_errors(cells)`: `input_clear_error` on every input. -/
def row_cells_clear_errors (cells : List Cell) : List Cell :=
  cells.map fun c =>
    { numbers := c.numbers.map fun i => { i with errorMark := none },
      strings := c.strings.map fun i => { i with errorMark := none },
      enums := c.enums.map fun e => { e with errorMark := none },
      multis := c.multis.map fun m => { m with errorMark := none } }

/-- The mark written by `input_show_error input msg (required ? 'error' : 'warning')`. -/
def markFor (required : Bool) (msg : List Char) : Option (List Char × List Char) :=
  some (msg, if required then "error".toList else "warning".toList)

/-- Per-input step of `row_cells_validate` for `.number-input:not([readonly])`. -/
def number_validate_step (i : NumberInput) : NumberInput × Bool :=
  if i.readonly then (i, true)
  else
    match validate_number_required i with
    | some msg => ({ i with errorMark := markFor i.required msg }, false)
    | none => ({ i with errorMark := none }, true)

/-- Per-input step of `row_cells_validate` for `.string-input:not([readonly])`. -/
def string_validate_step (i : StringInput) : StringInput × Bool :=
  if i.readonly then (i, true)
  else
    match validate_string_required i with
    | some msg => ({ i with errorMark := markFor i.required msg }, false)
    | none => ({ i with errorMark := none }, true)

/-- Per-widget step of `row_cells_validate` for enum containers (skipped when
the visible input is readonly). -/
def enum_validate_step (e : EnumField) : EnumField × Bool :=
  if e.visibleReadonly then (e, true)
  else
    match validate_enum_required e with
    | some msg => ({ e with errorMark := markFor e.required msg }, false)
    | none => ({ e with errorMark := none }, true)

/-- Per-widget step of `row_cells_validate` for multi-exclusive containers. -/
def multi_validate_step (m : MultiField) : MultiField × Bool :=
  match validate_multi_exclusive_required m with
  | some msg => ({ m with errorMark := markFor m.required msg }, false)
  | none => ({ m with errorMark := none }, true)

/-- Apply a validating update to each element, conjoining the verdicts
(the `valid = false` accumulation of the source). -/
def stepsAnd {α : Type} (f : α → α × Bool) : List α → List α × Bool
  | [] => ([], true)
  | a :: as =>
    let r := f a
    let rs := stepsAnd f as
    (r.1 :: rs.1, r.2 && rs.2)

/-- Validate the four input groups of one cell. -/
def cell_validate (c : Cell) : Cell × Bool :=
  let ns := stepsAnd number_validate_step c.numbers
  let ss := stepsAnd string_validate_step c.strings
  let es := stepsAnd enum_validate_step c.enums
  let ms := stepsAnd multi_validate_step c.multis
  (⟨ns.1, ss.1, es.1, ms.1⟩, ns.2 && ss.2 && es.2 && ms.2)

/-- `row_cells_validate(cells)`: a row without user data is valid and gets
its error markers cleared; otherwise every input is validated and marked.
The returned pair is the boolean verdict and the row's post-state. -/
def row_cells_validate (cells : List Cell) : Bool × List Cell :=
  if !row_cells_has_data cells then (true, row_cells_clear_errors cells)
  else
    let r := stepsAnd cell_validate cells
    (r.2, r.1)

/-! ### Serialization and save (`src/frontend/script.js`) -/

/-- A JSON value produced by the client serializer. -/
inductive SVal where
  | num (q : ℚ)
  | str (s : List Char)
deriving DecidableEq, Repr

/-- JavaScript object assignment `data[k] = v` on an ordered key/value list. -/
def assocSet {β : Type} (d : List (String × β)) (k : String) (v : β) :
    List (String × β) :=
  if d.any fun kv => kv.1 = k then
    d.map fun kv => if kv.1 = k then (k, v) else kv
  else d ++ [(k, v)]

/-- First binding of `k` (JavaScript / Go map read). -/
def assocGet {β : Type} (d : List (String × β)) (k : String) : Option β :=
  (d.find? fun kv => kv.1 = k).map Prod.snd

/-- The per-row object built by `table_serialize`: parsable numbers, non-empty
trimmed strings, non-empty enum and multi-exclusive hidden values (readonly
inputs included — the serializer does not filter on `readonly`). -/
def serializeRow (cells : List Cell) : List (String × SVal) :=
  cells.foldl (fun data c =>
    let data := c.numbers.foldl (fun d i =>
      match number_value_parse i.value with
      | some q => assocSet d i.name (SVal.num q)
      | none => d) data
    let data := c.strings.foldl (fun d i =>
      let v := trimChars i.value
      if v.isEmpty then d else assocSet d i.name (SVal.str v)) data
    let data := c.enums.foldl (fun d e =>
      if e.hiddenValue.isEmpty then d else assocSet d e.name (SVal.str e.hiddenValue)) data
    let data := c.multis.foldl (fun d m =>
      if m.value.isEmpty then d else assocSet d m.name (SVal.str m.value)) data
    data) []

/-- Insert into a sorted duplicate-free index list. -/
def indicesInsert (n : ℕ) : List ℕ → List ℕ
  | [] => [n]
  | m :: ms =>
    if n < m then n :: m :: ms
    else if n = m then m :: ms
    else m :: indicesInsert n ms

/-- `all_row_indices_get(state)`: the distinct row indices present in the
grid, numerically sorted. -/
def all_row_indices_get (g : List (ℕ × Cell)) : List ℕ :=
  g.foldl (fun acc c => indicesInsert c.1 acc) []

/-- `row_cells_get(table, rowIndex)`: the cells tagged with a row index. -/
def row_cells_get (g : List (ℕ × Cell)) (idx : ℕ) : List Cell :=
  (g.filter fun rc => rc.1 = idx).map Prod.snd

/-- `table_validate_all(state)` (boolean verdict; the error-marker mutation
lives on the DOM and is not tracked at grid level). -/
def table_validate_all (g : List (ℕ × Cell)) : Bool :=
  (all_row_indices_get g).all fun idx => (row_cells_validate (row_cells_get g idx)).1

/-- `table_serialize(state)`: one object per row that has data, rows without
data skipped. -/
def table_serialize (g : List (ℕ × Cell)) : List (List (String × SVal)) :=
  (all_row_indices_get g).filterMap fun idx =>
    let cells := row_cells_get g idx
    if row_cells_has_data cells then some (serializeRow cells) else none

/-- `table_serialize_vertical(state)`: a single flat object collected by four
container-wide passes (numbers, strings, enums, multis). -/
def table_serialize_vertical (g : List (ℕ × Cell)) : List (String × SVal) :=
  let cells := g.map Prod.snd
  let data := cells.foldl (fun d c =>
    c.numbers.foldl (fun d i =>
      match number_value_parse i.value with
      | some q => assocSet d i.name (SVal.num q)
      | none => d) d) []
  let data := cells.foldl (fun d c =>
    c.strings.foldl (fun d i =>
      let v := trimChars i.value
      if v.isEmpty then d else assocSet d i.name (SVal.str v)) d) data
  let data := cells.foldl (fun d c =>
    c.enums.foldl (fun d e =>
      if e.hiddenValue.isEmpty then d else assocSet d e.name (SVal.str e.hiddenValue)) d) data
  cells.foldl (fun d c =>
    c.multis.foldl (fun d m =>
      if m.value.isEmpty then d else assocSet d m.name (SVal.str m.value)) d) data

/-- The wire body of a save POST. -/
inductive SaveBody where
  | arr (rows : List (List (String × SVal)))
  | obj (fields : List (String × SVal))
deriving DecidableEq, Repr

/-- Observable side effects of the grid runtime. -/
inductive Effect where
  | toast (message : List Char) (kind : String)
  | network (body : SaveBody)
  | success_display (rowIndex : ℕ)
deriving DecidableEq, Repr

structure TableState where
  tableType : String
  grid : List (ℕ × Cell)
  pending_save : Bool
  last_save_time : ℤ
deriving DecidableEq, Repr

def SAVE_COOLDOWN_MS : ℤ := 3000

/-- `table_save(state)`.  `now` is `Date.now()` at entry, `netOk` whether the
POST resolves with a 2xx response, `ackTime` the `Date.now()` recorded on
acknowledgment.  Returns the boolean result, the post-call state
(`pending_save` is set for the duration of the request and reset in the
`finally` block, so it is `false` again on return) and the emitted effects.
Error toasts carry the fixed message prefix (the appended exception text is
not modelled). -/
def table_save (st : TableState) (now : ℤ) (netOk : Bool) (ackTime : ℤ) :
    Bool × TableState × List Effect :=
  if st.pending_save then (false, st, [])
  else
    let time_since_last := now - st.last_save_time
    if time_since_last < SAVE_COOLDOWN_MS then
      let remaining : ℤ := ⌈((SAVE_COOLDOWN_MS - time_since_last : ℚ) / 1000)⌉
      (false, st,
        [Effect.toast
          ("Poczekaj ".toList ++ (toString remaining).toList ++
            "s przed kolejnym zapisem".toList) "warning"])
    else if !table_validate_all st.grid then
      (false, st, [Effect.toast "Formularz zawiera błędy".toList "error"])
    else
      let body : SaveBody :=
        if st.tableType = "VERTICAL_STATIC_UNIQUE" then
          SaveBody.obj (table_serialize_vertical st.grid)
        else SaveBody.arr (table_serialize st.grid)
      let bodyEmpty :=
        match body with
        | SaveBody.obj o => o.isEmpty
        | SaveBody.arr a => a.isEmpty
      if bodyEmpty then
        (false, st, [Effect.toast "Brak danych do zapisania".toList "warning"])
      else if netOk then
        (true, { st with last_save_time := ackTime },
          Effect.network body ::
            ((all_row_indices_get st.grid).filter fun idx =>
                row_cells_has_data (row_cells_get st.grid idx)).map Effect.success_display ++
            [Effect.toast "Zapisano pomyślnie".toList "success"])
      else
        (false, st, [Effect.network body, Effect.toast "Błąd zapisu".toList "error"])

/-! ### Dynamic rows and the row-selector catalogue (`src/frontend/script.js`) -/

structure SelOption where
  value : String
  label : String
  rowCode : String
  hidden : Bool
  highlighted : Bool := false
deriving DecidableEq, Repr

structure RowEntry where
  index : ℕ
  code : String
deriving DecidableEq, Repr

structure DynState where
  row_counter : ℕ
  rows : List RowEntry
  options : List SelOption
  is_unique : Bool
  selectorText : List Char := []
  dropdownHidden : Bool := true
  enumSelIndex : ℤ := -1
deriving DecidableEq, Repr

/-- Update the first element satisfying `p` (a `querySelector` hit). -/
def updateFirst {α : Type} (p : α → Bool) (f : α → α) : List α → List α
  | [] => []
  | a :: as => if p a then f a :: as else a :: updateFirst p f as

/-- `dynamic_table_add_row(state, code)`: allocate `state.row_counter++`
unconditionally; on a successful fragment fetch insert the row markup,
in unique mode hide the catalogue option with that `data-value`, clear the
selector text and close the dropdown; on fetch failure change nothing else
and surface an error toast. -/
def dynamic_table_add_row (st : DynState) (code : String) (fetchOk : Bool) :
    Bool × DynState × List Effect :=
  let index := st.row_counter
  let st := { st with row_counter := st.row_counter + 1 }
  if fetchOk then
    let st := { st with rows := st.rows ++ [RowEntry.mk index code] }
    let newOptions :=
      if st.is_unique then
        updateFirst (fun (o : SelOption) => o.value = code)
          (fun o => { o with hidden := true }) st.options
      else st.options
    (true, { st with options := newOptions, selectorText := [], dropdownHidden := true }, [])
  else
    (false, st, [Effect.toast "Błąd dodawania wiersza".toList "error"])

/-- `dynamic_table_delete_row(state, cell)`: remove every cell carrying the
row index; in unique mode unhide the catalogue option with that
`data-row-code`. -/
def dynamic_table_delete_row (st : DynState) (rowIndex : ℕ) (rowCode : String) :
    DynState :=
  let st := { st with rows := st.rows.filter fun r => r.index ≠ rowIndex }
  let newOptions :=
    if st.is_unique then
      updateFirst (fun (o : SelOption) => o.rowCode = rowCode)
        (fun o => { o with hidden := false }) st.options
    else st.options
  { st with options := newOptions }

def toLowerChars (cs : List Char) : List Char := cs.map Char.toLower

/-- The `"value - label"` text an option is filtered against. -/
def selectorOptionText (o : SelOption) : List Char :=
  o.value.toList ++ " - ".toList ++ o.label.toList

/-- `dynamic_table_handle_selector_input(state, target)`: open the dropdown,
reset the highlight index, and re-filter by case-insensitive substring —
options already hidden by the unique logic are skipped and stay hidden. -/
def dynamic_table_handle_selector_input (st : DynState) (query : List Char) :
    DynState :=
  let q := toLowerChars query
  { st with
    selectorText := query
    dropdownHidden := false
    enumSelIndex := -1
    options := st.options.map fun o =>
      if st.is_unique && o.hidden then o
      else
        { o with
          hidden := !listContainsSeq q (toLowerChars (selectorOptionText o))
          highlighted := false } }

/-- Re-highlight the visible options: the one at visible position `i` gets
`bg-blue-100`, hidden options are untouched. -/
def highlightVisible : List SelOption → ℤ → ℤ → List SelOption
  | [], _, _ => []
  | o :: os, pos, i =>
    if o.hidden then o :: highlightVisible os pos i
    else { o with highlighted := pos = i } :: highlightVisible os (pos + 1) i

/-- Keys handled by the selector keydown handler. -/
inductive Key where
  | escape
  | arrowDown
  | arrowUp
  | enter
  | other
deriving DecidableEq, Repr

/-- `dynamic_table_handle_selector_keydown(state, e, target)`.  `Escape`
closes the list; `ArrowDown` opens it when closed; with the list open the
arrows move the highlight clamped to `[0, visible_count - 1]` and `Enter`
fires `dynamic_table_add_row` for the highlighted visible option's
`data-row-code` (the fetch outcome is the `fetchOk` parameter). -/
def dynamic_table_handle_selector_keydown (st : DynState) (k : Key)
    (fetchOk : Bool) : DynState × List Effect :=
  match k with
  | Key.escape => ({ st with dropdownHidden := true }, [])
  | k =>
    if k = Key.arrowDown && st.dropdownHidden then
      ({ st with dropdownHidden := false }, [])
    else if st.dropdownHidden then (st, [])
    else
      let options := st.options.filter fun o => !o.hidden
      let index := st.enumSelIndex
      match k with
      | Key.enter =>
        if 0 ≤ index then
          match options.get? index.toNat with
          | some o =>
            if o.rowCode ≠ "" then (dynamic_table_add_row st o.rowCode fetchOk).2
            else (st, [])
          | none => (st, [])
        else (st, [])
      | k =>
        let index :=
          if k = Key.arrowDown then min (index + 1) ((options.length : ℤ) - 1)
          else if k = Key.arrowUp then max (index - 1) 0
          else index
        ({ st with
            enumSelIndex := index
            options := highlightVisible st.options 0 index }, [])

/-! ### Server cell model and Cell Populator
(`src/sql_year/b_kolumny_select_where_podtabela.sql`, a Go source file)

Go strings stay `String` here.  A JSON number decoded by `encoding/json`
becomes a `float64`; the payloads at hand are decimal literals, modelled
exactly as a scaled decimal `m / 10^e`.  Composite JSON values
(arrays/objects) do not occur as grid cell payload values and are not
modelled.  Go map iteration order is unspecified; the embedding iterates
objects in their stored key order. -/

structure TableColumn where
  Name : String
  Title : String
  Label : String
  Required : ℤ
deriving DecidableEq, Repr

structure TableCell where
  Value : String := ""
  Name : String
  Required : ℤ := 0
  Editable : ℤ := 0
  Blocked : Bool := false
deriving DecidableEq, Repr

structure TableRow where
  Cells : List TableCell := []
  Title : String := ""
  Code : String := ""
  Index : ℤ := 0
deriving DecidableEq, Repr

structure BBlokady where
  Column : String
  Code : String
deriving DecidableEq, Repr

/-- A decoded JSON value (`any` after `json.Unmarshal`). -/
inductive JVal where
  | str (s : String)
  | num (m : ℤ) (e : ℕ)
  | boolean (b : Bool)
  | null
deriving DecidableEq, Repr

/-- `strings.HasSuffix(k, "_Kod")`. -/
def endsWithKod (k : String) : Bool := listEndsWith "_Kod".toList k.toList

/-- `strings.Contains(name, "_Kod")`. -/
def containsKod (k : String) : Bool := listContainsSeq "_Kod".toList k.toList

/-- `strings.Contains(name, "_Wyszczegolnienie")`. -/
def containsWyszczegolnienie (k : String) : Bool :=
  listContainsSeq "_Wyszczegolnienie".toList k.toList

/-- `formatValue(v)`: strings pass through; a numerically integral `float64`
renders via `strconv.FormatInt` (no fractional part); other numbers via
`strconv.FormatFloat(val, 'f', -1, 64)` (shortest digits, here the reduced
decimal); `nil` renders empty; remaining kinds via `fmt.Sprintf("%v", v)`. -/
def stripTrailingZeros : ℤ → ℕ → ℤ × ℕ
  | m, 0 => (m, 0)
  | m, e + 1 => if m % 10 = 0 then stripTrailingZeros (m / 10) e else (m, e + 1)

/-- Shortest fixed-point decimal string of `m / 10^e`. -/
def decRepr (m : ℤ) (e : ℕ) : List Char :=
  let r := stripTrailingZeros m e
  if r.2 = 0 then intRepr r.1
  else
    (if r.1 < 0 then ['-'] else []) ++
      natToDigits (r.1.natAbs / 10 ^ r.2) ++
      '.' :: leftPadZeros r.2 (natToDigits (r.1.natAbs % 10 ^ r.2))

def formatValue : JVal → String
  | JVal.str s => s
  | JVal.num m e =>
    if (10 : ℤ) ^ e ∣ m then String.mk (intRepr (m / 10 ^ e))
    else String.mk (decRepr m e)
  | JVal.null => ""
  | JVal.boolean b => if b then "true" else "false"

/-- The `lookup` map of `PopulateCellsFromArray`: for each payload object,
the first key with the `"_Kod"` suffix decides; only a string value
registers the object, keyed by that value (later objects overwrite). -/
def buildKodLookup (dataArray : List (List (String × JVal))) :
    List (String × List (String × JVal)) :=
  dataArray.foldl (fun lookup item =>
    match item.find? fun kv => endsWithKod kv.1 with
    | some (_, JVal.str code) => assocSet lookup code item
    | some (_, _) => lookup
    | none => lookup) []

/-- The per-cell copy of `PopulateCellsFromArray` / `PopulateCellsFromObject`:
`if val, ok := data[cell.Name]; ok { cell.Value = formatValue(val) }`. -/
def populateCell (item : List (String × JVal)) (cell : TableCell) : TableCell :=
  match assocGet item cell.Name with
  | some v => { cell with Value := formatValue v }
  | none => cell

/-- Copy payload values into one row's cells by exact column-name match;
absent keys leave the cell untouched. -/
def populateRowFromItem (row : TableRow) (item : List (String × JVal)) : TableRow :=
  { row with Cells := row.Cells.map (populateCell item) }

/-- The post-parse body of `PopulateCellsFromArray`. -/
def populateCellsFromArrayCore (rows : List TableRow)
    (dataArray : List (List (String × JVal))) : List TableRow :=
  let lookup := buildKodLookup dataArray
  rows.map fun row =>
    match assocGet lookup row.Code with
    | some item => populateRowFromItem row item
    | none => row

/-- `PopulateCellsFromArray(rows, jsonData)`.  `parse` stands for the external
`encoding/json.Unmarshal` into `[]map[string]any`; the returned flag is
`true` exactly when the Go function returns a non-nil error, in which case
the rows are untouched. -/
def PopulateCellsFromArray
    (parse : String → Option (List (List (String × JVal))))
    (rows : List TableRow) (jsonData : String) : List TableRow × Bool :=
  if jsonData = "" then (rows, false)
  else
    match parse jsonData with
    | none => (rows, true)
    | some dataArray => (populateCellsFromArrayCore rows dataArray, false)

/-- `PopulateCellsFromObject(rows, jsonData)` for the vertical layout. -/
def PopulateCellsFromObject
    (parse : String → Option (List (String × JVal)))
    (rows : List TableRow) (jsonData : String) : List TableRow × Bool :=
  if jsonData = "" then (rows, false)
  else
    match parse jsonData with
    | none => (rows, true)
    | some data => (rows.map fun row => populateRowFromItem row data, false)

/-! ### Schema Resolver row construction -/

/-- One cell of the `HORIZONTAL_STATIC_UNIQUE` row loop in
`AnkietSubtableGet`: per-(column, code) block records mark the cell
`Blocked`; a name containing `"_Kod"` makes it non-editable and pre-filled
with the row's code. -/
def buildStaticCell (col : TableColumn) (blocks : List BBlokady) (code : String) :
    TableCell :=
  let cell : TableCell :=
    { Name := col.Name, Required := col.Required, Editable := 1 }
  let cell :=
    if blocks.any fun b => b.Column = col.Name && b.Code = code then
      { cell with Blocked := true }
    else cell
  if containsKod cell.Name then { cell with Editable := 0, Value := code }
  else cell

/-- One `HORIZONTAL_STATIC_UNIQUE` row of `AnkietSubtableGet`. -/
def buildStaticRow (columns : List TableColumn) (blocks : List BBlokady)
    (code title : String) : TableRow :=
  { Title := title, Code := code,
    Cells := columns.map fun col => buildStaticCell col blocks code }

/-- One cell of the row fragment built by `AnkietRowGet`: blocks are already
code-filtered (matched on column name only); `"_Kod"` names are
non-editable and pre-filled with the code; `"_Wyszczegolnienie"` names are
pre-filled with the code's catalogue title (`tytulOf`, the
`b_kody_tytul_where_kod` query). -/
def buildDynamicCell (col : TableColumn) (blocks : List BBlokady) (code : String)
    (tytulOf : String → String) : TableCell :=
  let cell : TableCell :=
    { Name := col.Name, Required := col.Required, Editable := 1 }
  let cell :=
    if blocks.any fun b => b.Column = col.Name then { cell with Blocked := true }
    else cell
  let cell :=
    if containsKod cell.Name then { cell with Editable := 0, Value := code }
    else cell
  if containsWyszczegolnienie cell.Name then { cell with Value := tytulOf code }
  else cell

/-- The row fragment built by `AnkietRowGet` for `(code, index)`. -/
def buildDynamicRow (columns : List TableColumn) (blocks : List BBlokady)
    (code : String) (index : ℤ) (tytulOf : String → String) : TableRow :=
  { Code := code, Index := index,
    Cells := columns.map fun col => buildDynamicCell col blocks code tytulOf }

/-- The population step of `AnkietSubtableGet` for the static horizontal
layout: a populate error is logged as a warning and the handler still
renders the page (`app.Render` runs after the switch in every case). -/
def ankietSubtableGetPopulateStatic
    (parse : String → Option (List (List (String × JVal))))
    (rows : List TableRow) (jsonData : String) :
    List TableRow × List String × Bool :=
  let r := PopulateCellsFromArray parse rows jsonData
  (r.1, if r.2 then ["failed to populate horizontal static data"] else [], true)

/-- The population step of `AnkietSubtableGet` for the vertical layout. -/
def ankietSubtableGetPopulateVertical
    (parse : String → Option (List (String × JVal)))
    (rows : List TableRow) (jsonData : String) :
    List TableRow × List String × Bool :=
  let r := PopulateCellsFromObject parse rows jsonData
  (r.1, if r.2 then ["failed to populate vertical static data"] else [], true)

/-! ### Specification-side auxiliary definitions

These express properties claimed by the specification (group shapes, "all
constraints satisfied", "no network call", …) to compare against the
embedded code. -/

/-- Groups of two characters, a trailing group possibly of one. -/
def pairGroups : List Char → List (List Char)
  | [] => []
  | [a] => [[a]]
  | a :: b :: rest => [a, b] :: pairGroups rest

/-- Join groups with single dashes. -/
def dashJoined (gs : List (List Char)) : List Char := List.intercalate ['-'] gs

/-- Whether an effect is a network call. -/
def isNetworkEffect : Effect → Bool
  | Effect.network _ => true
  | _ => false

/-- Every non-blocked (non-readonly) field of the row satisfies its
field-level constraint: required presence, numeric format and min/max
bounds, string pattern, committed enum value, multi-select presence. -/
def rowConstraintsOk (cells : List Cell) : Bool :=
  cells.all fun c =>
    (c.numbers.all fun i => i.readonly || (validate_number_required i).isNone) &&
    (c.strings.all fun i => i.readonly || (validate_string_required i).isNone) &&
    (c.enums.all fun e => e.visibleReadonly || (validate_enum_required e).isNone) &&
    (c.multis.all fun m => (validate_multi_exclusive_required m).isNone)

/-- Every input of the row carries no error marker. -/
def rowMarksClear (cells : List Cell) : Bool :=
  cells.all fun c =>
    (c.numbers.all fun i => i.errorMark.isNone) &&
    (c.strings.all fun i => i.errorMark.isNone) &&
    (c.enums.all fun e => e.errorMark.isNone) &&
    (c.multis.all fun m => m.errorMark.isNone)

/-- The row has a field named `k` whose value survives its per-field
serialization rule. -/
def rowFieldPasses (cells : List Cell) (k : String) : Bool :=
  cells.any fun c =>
    (c.numbers.any fun i => (number_value_parse i.value).isSome && i.name = k) ||
    (c.strings.any fun i => !(trimChars i.value).isEmpty && i.name = k) ||
    (c.enums.any fun e => !e.hiddenValue.isEmpty && e.name = k) ||
    (c.multis.any fun m => !m.value.isEmpty && m.name = k)

/-- The exact numeric value denoted by `number_format_value value fmt`. -/
def renderedQ (v : ℚ) (d : ℕ) : ℚ :=
  if d = 0 then (jsRound v : ℚ)
  else (if v < 0 then -1 else 1) * (((jsRound (|v| * 10 ^ d)).toNat : ℚ) / 10 ^ d)

/-- All row indices present in the grid are strictly below the counter. -/
def dynIndicesBound (st : DynState) : Bool :=
  st.rows.all fun r => r.index < st.row_counter

/-! ## Theorems -/

/-! ### C10: `string_format_pattern` -/

theorem sfpGo_filter_isDigit (ds : List Char) (i : ℕ)
    (h : ∀ c ∈ ds, c.isDigit = true) :
    (sfpGo ds i).filter Char.isDigit = ds.take (8 - i) := by
  induction ds generalizing i with
  | nil => simp [sfpGo]
  | cons d ds ih =>
    have hd : d.isDigit = true := h d (by simp)
    have hds : ∀ c ∈ ds, c.isDigit = true := fun c hc => h c (by simp [hc])
    have hdash : ('-').isDigit = false := by decide
    by_cases hi : i < 8
    · have h8 : 8 - i = (8 - (i + 1)) + 1 := by omega
      by_cases hparity : 0 < i ∧ i % 2 = 0
      · simp [sfpGo, hi, hparity, hdash, hd, ih _ hds, h8]
      · simp [sfpGo, hi, hparity, hdash, hd, ih _ hds, h8]
    · have h0 : 8 - i = 0 := by omega
      simp [sfpGo, hi, h0]

theorem sfpGo_take (ds : List Char) (i : ℕ) :
    sfpGo (ds.take (8 - i)) i = sfpGo ds i := by
  induction ds generalizing i with
  | nil => simp
  | cons d ds ih =>
    by_cases hi : i < 8
    · have h8 : 8 - i = (8 - (i + 1)) + 1 := by omega
      rw [h8, List.take_succ_cons]
      simp only [sfpGo, hi, if_true]
      rw [ih]
    · have h0 : 8 - i = 0 := by omega
      simp [sfpGo, hi, h0]

theorem sfpGo_pairs : ∀ ds : List Char, ds.length ≤ 8 →
    sfpGo ds 0 = dashJoined (pairGroups ds) := by
  intro ds h
  rcases ds with _ | ⟨a, _ | ⟨b, _ | ⟨c, _ | ⟨d, _ | ⟨e, _ | ⟨f, _ | ⟨g, _ | ⟨h1, _ | ⟨i, t⟩⟩⟩⟩⟩⟩⟩⟩⟩
  · rfl
  · rfl
  · rfl
  · rfl
  · rfl
  · rfl
  · rfl
  · rfl
  · rfl
  · simp at h

/-- C10: `string_format_pattern s` holds at most eight digits, namely the
first eight digits of `s` in order, laid out as dash-separated pairs with
a possibly shorter trailing group, and the function is idempotent. -/
theorem string_format_pattern_spec (s : List Char) :
    ((string_format_pattern s).filter Char.isDigit).length ≤ 8 ∧
    (string_format_pattern s).filter Char.isDigit = (s.filter Char.isDigit).take 8 ∧
    string_format_pattern s = dashJoined (pairGroups ((s.filter Char.isDigit).take 8)) ∧
    string_format_pattern (string_format_pattern s) = string_format_pattern s := by
  have hds : ∀ c ∈ s.filter Char.isDigit, c.isDigit = true :=
    fun c hc => List.of_mem_filter hc
  have h1 := sfpGo_filter_isDigit (s.filter Char.isDigit) 0 hds
  have htake : (8 : ℕ) - 0 = 8 := rfl
  rw [htake] at h1
  refine ⟨?_, ?_, ?_, ?_⟩
  · rw [string_format_pattern, h1, List.length_take]
    exact min_le_left _ _
  · rw [string_format_pattern, h1]
  · rw [string_format_pattern]
    have := sfpGo_take (s.filter Char.isDigit) 0
    rw [htake] at this
    rw [← this]
    apply sfpGo_pairs
    rw [List.length_take]
    exact min_le_left _ _
  · conv_lhs => rw [string_format_pattern, string_format_pattern, h1]
    have := sfpGo_take (s.filter Char.isDigit) 0
    rw [htake] at this
    rw [this, string_format_pattern]

/-! ### C5: `_Kod` cell marking in row construction -/

theorem buildStaticCell_eq (col : TableColumn) (blocks : List BBlokady)
    (code : String) :
    buildStaticCell col blocks code =
      { Name := col.Name, Required := col.Required,
        Blocked := blocks.any fun b => b.Column = col.Name && b.Code = code,
        Editable := if containsKod col.Name then 0 else 1,
        Value := if containsKod col.Name then code else "" } := by
  unfold buildStaticCell
  dsimp only
  split_ifs <;> simp_all

theorem buildDynamicCell_eq (col : TableColumn) (blocks : List BBlokady)
    (code : String) (tytulOf : String → String) :
    buildDynamicCell col blocks code tytulOf =
      { Name := col.Name, Required := col.Required,
        Blocked := blocks.any fun b => b.Column = col.Name,
        Editable := if containsKod col.Name then 0 else 1,
        Value :=
          if containsWyszczegolnienie col.Name then tytulOf code
          else if containsKod col.Name then code else "" } := by
  unfold buildDynamicCell
  dsimp only
  split_ifs <;> simp_all

/-- C5 counterexample: the code tests `strings.Contains(name, "_Kod")`, not
an end-of-name match.  The column `"Test_Kodeks"` does not end in `"_Kod"`,
yet its static cell is marked non-editable and pre-filled with the code;
and in the fragment construction the column `"X_Wyszczegolnienie"` is
editable yet does not start empty. -/
theorem kod_cell_marking_counterexample :
    (buildStaticRow [⟨"Test_Kodeks", "t", "l", 0⟩] [] "01" "tytul").Cells
        = [{ Value := "01", Name := "Test_Kodeks", Required := 0,
             Editable := 0, Blocked := false }] ∧
    endsWithKod "Test_Kodeks" = false ∧
    (buildDynamicRow [⟨"X_Wyszczegolnienie", "t", "l", 0⟩] [] "01" 0
        (fun _ => "opis")).Cells
        = [{ Value := "opis", Name := "X_Wyszczegolnienie", Required := 0,
             Editable := 1, Blocked := false }] := by
  refine ⟨by decide, by decide, by decide⟩

/-- C5 (amended): exactly the cells whose name *contains* the reserved
`"_Kod"` substring are marked non-editable and pre-filled with the row's
code; all other cells are editable and, in the static construction, start
empty; in the per-row fragment construction a cell whose name contains
`"_Wyszczegolnienie"` is instead pre-filled with the code's catalogue
title, and the remaining cells start empty. -/
theorem kod_cell_marking_amended (columns : List TableColumn)
    (blocks : List BBlokady) (code title : String) (index : ℤ)
    (tytulOf : String → String) (col : TableColumn) :
    ((buildStaticRow columns blocks code title).Cells
        = columns.map fun c => buildStaticCell c blocks code) ∧
    ((buildDynamicRow columns blocks code index tytulOf).Cells
        = columns.map fun c => buildDynamicCell c blocks code tytulOf) ∧
    (buildStaticCell col blocks code).Name = col.Name ∧
    (containsKod col.Name = true →
      (buildStaticCell col blocks code).Editable = 0 ∧
      (buildStaticCell col blocks code).Value = code) ∧
    (containsKod col.Name = false →
      (buildStaticCell col blocks code).Editable = 1 ∧
      (buildStaticCell col blocks code).Value = "") ∧
    (buildDynamicCell col blocks code tytulOf).Name = col.Name ∧
    (containsKod col.Name = true →
      (buildDynamicCell col blocks code tytulOf).Editable = 0) ∧
    (containsKod col.Name = false →
      (buildDynamicCell col blocks code tytulOf).Editable = 1) ∧
    (containsWyszczegolnienie col.Name = true →
      (buildDynamicCell col blocks code tytulOf).Value = tytulOf code) ∧
    (containsKod col.Name = true → containsWyszczegolnienie col.Name = false →
      (buildDynamicCell col blocks code tytulOf).Value = code) ∧
    (containsKod col.Name = false → containsWyszczegolnienie col.Name = false →
      (buildDynamicCell col blocks code tytulOf).Value = "") := by
  refine ⟨rfl, rfl, ?_, ?_, ?_, ?_, ?_, ?_, ?_, ?_, ?_⟩ <;>
    simp only [buildStaticCell_eq, buildDynamicCell_eq] <;> intros <;> simp_all

theorem kod_cell_marking_amended_witness :
    (buildStaticCell ⟨"Wartosc_Kod", "t", "l", 1⟩ [] "07").Editable = 0 ∧
    (buildStaticCell ⟨"Wartosc_Kod", "t", "l", 1⟩ [] "07").Value = "07" ∧
    (buildStaticCell ⟨"Inna", "t", "l", 1⟩ [] "07").Editable = 1 :=
  ⟨((kod_cell_marking_amended [] [] "07" "" 0 id ⟨"Wartosc_Kod", "t", "l", 1⟩).2.2.2.1
      (by decide)).1,
   ((kod_cell_marking_amended [] [] "07" "" 0 id ⟨"Wartosc_Kod", "t", "l", 1⟩).2.2.2.1
      (by decide)).2,
   ((kod_cell_marking_amended [] [] "07" "" 0 id ⟨"Inna", "t", "l", 1⟩).2.2.2.2.1
      (by decide)).1⟩

/-! ### Association-list lemmas -/

theorem find?_map_replace_ne {β : Type} (d : List (String × β)) (k k' : String)
    (v : β) (h : k' ≠ k) :
    ((d.map fun kv => if kv.1 = k then (k, v) else kv).find? fun kv => kv.1 = k')
      = d.find? fun kv => kv.1 = k' := by
  induction d with
  | nil => rfl
  | cons a d ih =>
    by_cases ha : a.1 = k
    · have h1 : ¬ (((k, v) : String × β).1 = k') := fun hh => h hh.symm
      have h2 : ¬ (a.1 = k') := by rw [ha]; exact fun hh => h hh.symm
      simp only [List.map_cons, ha, eq_self_iff_true, ite_true]
      rw [List.find?_cons_of_neg _ (by simpa using h1),
        List.find?_cons_of_neg _ (by simpa using h2)]
      exact ih
    · simp only [List.map_cons, ha, if_false]
      by_cases ha' : a.1 = k'
      · rw [List.find?_cons_of_pos _ (by simpa using ha'),
          List.find?_cons_of_pos _ (by simpa using ha')]
      · rw [List.find?_cons_of_neg _ (by simpa using ha'),
          List.find?_cons_of_neg _ (by simpa using ha')]
        exact ih

theorem find?_map_replace_eq {β : Type} (d : List (String × β)) (k : String)
    (v : β) (hany : (d.any fun kv => kv.1 = k) = true) :
    ((d.map fun kv => if kv.1 = k then (k, v) else kv).find? fun kv => kv.1 = k)
      = some (k, v) := by
  induction d with
  | nil => simp at hany
  | cons a d ih =>
    by_cases ha : a.1 = k
    · simp [ha]
    · simp only [List.any_cons, Bool.or_eq_true, decide_eq_true_eq] at hany
      rcases hany with hany | hany
      · exact absurd hany ha
      · simp only [List.map_cons, ha, if_false]
        rw [List.find?_cons_of_neg _ (by simpa using ha)]
        exact ih hany

theorem assocGet_assocSet {β : Type} (d : List (String × β)) (k k' : String) (v : β) :
    assocGet (assocSet d k v) k' = if k' = k then some v else assocGet d k' := by
  by_cases hany : (d.any fun kv => kv.1 = k) = true
  · rw [assocSet, if_pos hany]
    by_cases hk' : k' = k
    · subst hk'
      rw [assocGet, find?_map_replace_eq d k' v hany, if_pos rfl]
      rfl
    · rw [assocGet, find?_map_replace_ne d k k' v hk', if_neg hk']
      rfl
  · rw [assocSet, if_neg hany, assocGet, List.find?_append]
    by_cases hk' : k' = k
    · subst hk'
      have hnone : (d.find? fun kv => kv.1 = k') = none := by
        rw [List.find?_eq_none]
        intro x hx hpx
        exact hany (List.any_eq_true.mpr ⟨x, hx, hpx⟩)
      simp [hnone]
    · have h1 : ¬ ((k, v).1 = k') := fun hh => hk' hh.symm
      rw [List.find?_cons_of_neg _ (by simpa using h1), if_neg hk']
      simp [assocGet]

/-! ### C4: `PopulateCellsFromArray` -/

theorem natToDigits_mem (n : ℕ) : ∀ c ∈ natToDigits n, ∃ k, k < 10 ∧ c = digitChar k := by
  induction n using Nat.strong_induction_on with
  | _ n ih =>
    rw [natToDigits]
    by_cases h : n < 10
    · simp only [h, dif_pos, List.mem_singleton]
      rintro c rfl
      exact ⟨n, h, rfl⟩
    · simp only [h, dif_neg, not_false_iff, List.mem_append, List.mem_singleton]
      rintro c (hc | rfl)
      · exact ih (n / 10) (Nat.div_lt_self (by omega) (by omega)) c hc
      · exact ⟨n % 10, Nat.mod_lt _ (by omega), rfl⟩

theorem digitChar_facts : ∀ k, k < 10 →
    (digitChar k).isDigit = true ∧ (digitChar k).isWhitespace = false ∧
    digitChar k ≠ '.' ∧ digitChar k ≠ ',' ∧ digitChar k ≠ '-' := by decide

theorem natToDigits_not_dot (n : ℕ) : '.' ∉ natToDigits n := by
  intro hc
  obtain ⟨k, hk, he⟩ := natToDigits_mem n '.' hc
  exact (digitChar_facts k hk).2.2.1 he.symm

theorem intRepr_not_dot (m : ℤ) : '.' ∉ intRepr m := by
  rw [intRepr]
  intro hc
  rcases List.mem_append.mp hc with h | h
  · split_ifs at h <;> simp_all
  · exact natToDigits_not_dot _ h

theorem buildKodLookup_mem (dataArray : List (List (String × JVal)))
    (init : List (String × List (String × JVal))) (code : String)
    (item : List (String × JVal))
    (h : assocGet (dataArray.foldl (fun lookup item =>
          match item.find? fun kv => endsWithKod kv.1 with
          | some (_, JVal.str c) => assocSet lookup c item
          | some (_, _) => lookup
          | none => lookup) init) code = some item) :
    assocGet init code = some item ∨
      (item ∈ dataArray ∧
        ∃ k, item.find? (fun kv => endsWithKod kv.1) = some (k, JVal.str code)) := by
  induction dataArray generalizing init with
  | nil => exact Or.inl h
  | cons it rest ih =>
    rw [List.foldl_cons] at h
    rcases ih _ h with h' | h'
    · rcases hf : it.find? fun kv => endsWithKod kv.1 with _ | ⟨k, v⟩
      · rw [hf] at h'
        dsimp only at h'
        exact Or.inl h'
      · cases v with
        | str s =>
          rw [hf] at h'
          dsimp only at h'
          rw [assocGet_assocSet] at h'
          by_cases hc : code = s
          · subst hc
            rw [if_pos rfl] at h'
            cases h'
            exact Or.inr ⟨List.mem_cons_self _ _, k, hf⟩
          · rw [if_neg hc] at h'
            exact Or.inl h'
        | num m e => rw [hf] at h'; dsimp only at h'; exact Or.inl h'
        | boolean b => rw [hf] at h'; dsimp only at h'; exact Or.inl h'
        | null => rw [hf] at h'; dsimp only at h'; exact Or.inl h'
    · exact Or.inr ⟨List.mem_cons_of_mem _ h'.1, h'.2⟩

/-- C4: a parsed horizontal payload populates rows through a lookup keyed by
the string value of the first `"_Kod"`-suffixed key of each object; values
are copied only into cells whose `Name` equals a key present in that
object, integral JSON numbers render with no fractional part, strings pass
through unchanged, and cells for absent keys are left untouched. -/
theorem populate_cells_from_array_spec
    (parse : String → Option (List (List (String × JVal))))
    (jsonData : String) (dataArray : List (List (String × JVal)))
    (rows : List TableRow)
    (hparse : parse jsonData = some dataArray) (hne : jsonData ≠ "") :
    PopulateCellsFromArray parse rows jsonData
        = (populateCellsFromArrayCore rows dataArray, false) ∧
    populateCellsFromArrayCore rows dataArray
        = rows.map (fun row =>
            match assocGet (buildKodLookup dataArray) row.Code with
            | some item => populateRowFromItem row item
            | none => row) ∧
    (∀ code item, assocGet (buildKodLookup dataArray) code = some item →
       item ∈ dataArray ∧
         ∃ k, item.find? (fun kv => endsWithKod kv.1) = some (k, JVal.str code)) ∧
    (∀ (item : List (String × JVal)) (row : TableRow),
       (populateRowFromItem row item).Cells = row.Cells.map (populateCell item)) ∧
    (∀ (item : List (String × JVal)) (cell : TableCell) (v : JVal),
       assocGet item cell.Name = some v →
       populateCell item cell = { cell with Value := formatValue v }) ∧
    (∀ (item : List (String × JVal)) (cell : TableCell),
       assocGet item cell.Name = none → populateCell item cell = cell) ∧
    (∀ (m : ℤ) (e : ℕ), (10 : ℤ) ^ e ∣ m →
       formatValue (JVal.num m e) = String.mk (intRepr (m / 10 ^ e)) ∧
       '.' ∉ (formatValue (JVal.num m e)).toList) ∧
    (∀ s, formatValue (JVal.str s) = s) := by
  refine ⟨?_, rfl, ?_, fun _ _ => rfl, ?_, ?_, ?_, fun _ => rfl⟩
  · rw [PopulateCellsFromArray, if_neg hne, hparse]
  · intro code item h
    rcases buildKodLookup_mem dataArray [] code item h with h' | h'
    · simp [assocGet] at h'
    · exact h'
  · intro item cell v h
    rw [populateCell, h]
  · intro item cell h
    rw [populateCell, h]
  · intro m e hdvd
    constructor
    · rw [formatValue, if_pos hdvd]
    · rw [formatValue, if_pos hdvd]
      exact intRepr_not_dot _

theorem populate_cells_from_array_spec_witness :
    PopulateCellsFromArray (fun _ => some [[("A_Kod", JVal.str "01")]]) [] "x"
      = (populateCellsFromArrayCore [] [[("A_Kod", JVal.str "01")]], false) :=
  (populate_cells_from_array_spec (fun _ => some [[("A_Kod", JVal.str "01")]])
    "x" _ [] rfl (by decide)).1

/-! ### C6: malformed or empty persisted payload -/

/-- C6 counterexample: for an *empty* persisted payload the populate
functions take the `jsonData == ""` early return and report no error, so
the `err != nil` guard in `AnkietSubtableGet` fails and *no warning is
logged* — the warning list is empty (the page still renders).  The claimed
"logs a warning" holds only for the malformed (non-parsable) case. -/
theorem populate_empty_no_warning_counterexample :
    PopulateCellsFromArray (fun _ => none) [] "" = ([], false) ∧
    ankietSubtableGetPopulateStatic (fun _ => none) [] "" = ([], [], true) ∧
    PopulateCellsFromObject (fun _ => none) [] "" = ([], false) ∧
    ankietSubtableGetPopulateVertical (fun _ => none) [] "" = ([], [], true) :=
  ⟨rfl, rfl, rfl, rfl⟩

/-- C6 (amended): an empty payload populates nothing, reports no error and
logs nothing, and the page still renders; a malformed payload (the
external JSON decoder fails) leaves every row untouched, the populate
functions return an error, and `AnkietSubtableGet` logs a warning
and still renders the page. -/
theorem populate_malformed_or_empty_spec
    (parseA : String → Option (List (List (String × JVal))))
    (parseO : String → Option (List (String × JVal)))
    (rows rowsV : List TableRow) (jsonData : String) :
    (jsonData = "" →
      PopulateCellsFromArray parseA rows jsonData = (rows, false) ∧
      PopulateCellsFromObject parseO rowsV jsonData = (rowsV, false) ∧
      ankietSubtableGetPopulateStatic parseA rows jsonData = (rows, [], true) ∧
      ankietSubtableGetPopulateVertical parseO rowsV jsonData = (rowsV, [], true)) ∧
    (jsonData ≠ "" → parseA jsonData = none →
      PopulateCellsFromArray parseA rows jsonData = (rows, true) ∧
      ankietSubtableGetPopulateStatic parseA rows jsonData
        = (rows, ["failed to populate horizontal static data"], true)) ∧
    (jsonData ≠ "" → parseO jsonData = none →
      PopulateCellsFromObject parseO rowsV jsonData = (rowsV, true) ∧
      ankietSubtableGetPopulateVertical parseO rowsV jsonData
        = (rowsV, ["failed to populate vertical static data"], true)) := by
  refine ⟨?_, ?_, ?_⟩ <;> intros <;>
    simp_all [PopulateCellsFromArray, PopulateCellsFromObject,
      ankietSubtableGetPopulateStatic, ankietSubtableGetPopulateVertical]

theorem populate_malformed_or_empty_spec_witness :
    PopulateCellsFromArray (fun _ => none) [] "" = ([], false) ∧
    PopulateCellsFromArray (fun _ => none) [] "x" = ([], true) :=
  ⟨((populate_malformed_or_empty_spec (fun _ => none) (fun _ => none) [] [] "").1 rfl).1,
   ((populate_malformed_or_empty_spec (fun _ => none) (fun _ => none) [] [] "x").2.1
      (by decide) rfl).1⟩

/-! ### C8: row-index allocation -/

/-- C8: `dynamic_table_add_row` allocates indices from a strictly increasing
counter: the counter advances on every call, a successful add appends one
row tagged with the old counter value, and — when all existing indices are
below the counter — the allocated index matches no existing row, also
after deletes (which never touch the counter).  A failed fragment fetch
inserts no row, emits an error toast, and does not roll the counter back. -/
theorem dynamic_row_index_spec (st : DynState) (code : String) (fetchOk : Bool)
    (idx : ℕ) (rcode : String) :
    (dynamic_table_add_row st code fetchOk).2.1.row_counter = st.row_counter + 1 ∧
    (dynamic_table_delete_row st idx rcode).row_counter = st.row_counter ∧
    (dynIndicesBound st = true →
      (st.rows.all fun r => r.index ≠ st.row_counter) = true ∧
      dynIndicesBound (dynamic_table_add_row st code fetchOk).2.1 = true ∧
      dynIndicesBound (dynamic_table_delete_row st idx rcode) = true) ∧
    (fetchOk = true →
      (dynamic_table_add_row st code fetchOk).2.1.rows
        = st.rows ++ [⟨st.row_counter, code⟩]) ∧
    (fetchOk = false →
      (dynamic_table_add_row st code fetchOk).1 = false ∧
      (dynamic_table_add_row st code fetchOk).2.1.rows = st.rows ∧
      (dynamic_table_add_row st code fetchOk).2.2
        = [Effect.toast "Błąd dodawania wiersza".toList "error"] ∧
      (dynamic_table_add_row st code fetchOk).2.1.row_counter = st.row_counter + 1) := by
  refine ⟨?_, ?_, ?_, ?_, ?_⟩
  · cases fetchOk <;> simp [dynamic_table_add_row]
  · simp [dynamic_table_delete_row]
  · intro hb
    simp only [dynIndicesBound, List.all_eq_true, decide_eq_true_eq] at hb ⊢
    refine ⟨?_, ?_, ?_⟩
    · intro r hr
      exact Nat.ne_of_lt (hb r hr)
    · have hc : (dynamic_table_add_row st code fetchOk).2.1.row_counter
          = st.row_counter + 1 := by
        cases fetchOk <;> simp [dynamic_table_add_row]
      have hrsub : ∀ r, r ∈ (dynamic_table_add_row st code fetchOk).2.1.rows →
          r ∈ st.rows ∨ r = ⟨st.row_counter, code⟩ := by
        cases fetchOk <;> intro r hr
        · simp only [dynamic_table_add_row, Bool.false_eq_true, if_false] at hr
          exact Or.inl hr
        · simpa [dynamic_table_add_row] using hr
      intro r hr
      rw [hc]
      rcases hrsub r hr with h | rfl
      · exact Nat.lt_succ_of_lt (hb r h)
      · exact Nat.lt_succ_self _
    · simp only [dynamic_table_delete_row]
      intro r hr
      exact hb r (List.mem_of_mem_filter hr)
  · intro h; subst h; simp [dynamic_table_add_row]
  · intro h; subst h; simp [dynamic_table_add_row]

theorem dynamic_row_index_spec_witness :
    dynIndicesBound (DynState.mk 2 [RowEntry.mk 0 "a"] [] true [] true (-1)) = true ∧
    ((DynState.mk 2 [RowEntry.mk 0 "a"] [] true [] true (-1)).rows.all
        fun r => r.index ≠ 2) = true ∧
    dynIndicesBound (dynamic_table_add_row
        (DynState.mk 2 [RowEntry.mk 0 "a"] [] true [] true (-1)) "b" true).2.1 = true :=
  ⟨by decide,
   ((dynamic_row_index_spec (DynState.mk 2 [RowEntry.mk 0 "a"] [] true [] true (-1))
      "b" true 0 "a").2.2.1 (by decide)).1,
   ((dynamic_row_index_spec (DynState.mk 2 [RowEntry.mk 0 "a"] [] true [] true (-1))
      "b" true 0 "a").2.2.1 (by decide)).2.1⟩

/-! ### C9: unique-mode catalogue exclusion -/

theorem updateFirst_hide_all (l : List SelOption) (code : String)
    (hnd : (l.map SelOption.value).Nodup) :
    ∀ o ∈ updateFirst (fun o => o.value = code)
        (fun o => { o with hidden := true }) l,
      o.value = code → o.hidden = true := by
  induction l with
  | nil => intro o ho; simp [updateFirst] at ho
  | cons a l ih =>
    rw [List.map_cons, List.nodup_cons] at hnd
    intro o ho hv
    by_cases ha : a.value = code
    · rw [updateFirst, if_pos (by simpa using ha)] at ho
      rcases List.mem_cons.mp ho with rfl | ho
      · rfl
      · exact absurd (hv.trans ha.symm ▸ List.mem_map_of_mem SelOption.value ho)
          (by simpa [hv, ha] using hnd.1)
    · rw [updateFirst, if_neg (by simpa using ha)] at ho
      rcases List.mem_cons.mp ho with rfl | ho
      · exact absurd hv ha
      · exact ih hnd.2 o ho hv

theorem updateFirst_unhide_all (l : List SelOption) (code : String)
    (hnd : (l.map SelOption.rowCode).Nodup) :
    ∀ o ∈ updateFirst (fun o => o.rowCode = code)
        (fun o => { o with hidden := false }) l,
      o.rowCode = code → o.hidden = false := by
  induction l with
  | nil => intro o ho; simp [updateFirst] at ho
  | cons a l ih =>
    rw [List.map_cons, List.nodup_cons] at hnd
    intro o ho hv
    by_cases ha : a.rowCode = code
    · rw [updateFirst, if_pos (by simpa using ha)] at ho
      rcases List.mem_cons.mp ho with rfl | ho
      · rfl
      · exact absurd (hv.trans ha.symm ▸ List.mem_map_of_mem SelOption.rowCode ho)
          (by simpa [hv, ha] using hnd.1)
    · rw [updateFirst, if_neg (by simpa using ha)] at ho
      rcases List.mem_cons.mp ho with rfl | ho
      · exact absurd hv ha
      · exact ih hnd.2 o ho hv

theorem keydown_rows (st : DynState) (k : Key) (fetchOk : Bool) :
    (dynamic_table_handle_selector_keydown st k fetchOk).1.rows = st.rows ∨
    ∃ o, o ∈ st.options ∧ o.hidden = false ∧
      (dynamic_table_handle_selector_keydown st k fetchOk).1.rows
        = st.rows ++ [⟨st.row_counter, o.rowCode⟩] := by
  cases k with
  | escape => exact Or.inl rfl
  | arrowDown =>
    simp only [dynamic_table_handle_selector_keydown]
    split_ifs <;> exact Or.inl rfl
  | arrowUp =>
    simp only [dynamic_table_handle_selector_keydown]
    split_ifs <;> exact Or.inl rfl
  | other =>
    simp only [dynamic_table_handle_selector_keydown]
    split_ifs <;> exact Or.inl rfl
  | enter =>
    simp only [dynamic_table_handle_selector_keydown]
    rw [if_neg (by simp)]
    by_cases hdd : st.dropdownHidden = true
    · rw [if_pos hdd]
      exact Or.inl rfl
    · rw [if_neg hdd]
      by_cases hidx : (0 : ℤ) ≤ st.enumSelIndex
      · rw [if_pos hidx]
        rcases hget : (st.options.filter fun o => !o.hidden).get? st.enumSelIndex.toNat
          with _ | ⟨o⟩ <;> rw [hget] <;> dsimp only
        · exact Or.inl rfl
        · by_cases hoc : o.rowCode ≠ ""
          · rw [if_pos hoc]
            have hmem := List.get?_mem hget
            have hfil := List.mem_filter.mp hmem
            cases fetchOk
            · exact Or.inl (by simp [dynamic_table_add_row])
            · exact Or.inr ⟨o, hfil.1, by simpa using hfil.2,
                by simp [dynamic_table_add_row]⟩
          · rw [if_neg hoc]
            exact Or.inl rfl
      · rw [if_neg hidx]
        exact Or.inl rfl

/-- C9: in `HORIZONTAL_DYNAMIC_UNIQUE` mode (a) a successful
`dynamic_table_add_row` hides the catalogue option of the added code,
(b) re-filtering by any typed text leaves options hidden by the unique
logic hidden, (c) the selector keydown handler only ever adds a row whose
code is the `data-row-code` of a currently visible option, and (d) after
`dynamic_table_delete_row` for a code its option is no longer hidden. -/
theorem unique_catalogue_spec (st : DynState) (code : String) (query : List Char)
    (k : Key) (fetchOk : Bool) (idx : ℕ) (hu : st.is_unique = true) :
    ((st.options.map SelOption.value).Nodup →
      ∀ o ∈ (dynamic_table_add_row st code true).2.1.options,
        o.value = code → o.hidden = true) ∧
    ((∀ o ∈ st.options, o.value = code → o.hidden = true) →
      ∀ o ∈ (dynamic_table_handle_selector_input st query).options,
        o.value = code → o.hidden = true) ∧
    (∀ r ∈ (dynamic_table_handle_selector_keydown st k fetchOk).1.rows,
       r ∈ st.rows ∨
         ∃ o, o ∈ st.options ∧ o.hidden = false ∧ r.code = o.rowCode) ∧
    ((st.options.map SelOption.rowCode).Nodup →
      ∀ o ∈ (dynamic_table_delete_row st idx code).options,
        o.rowCode = code → o.hidden = false) := by
  refine ⟨?_, ?_, ?_, ?_⟩
  · intro hnd
    simp only [dynamic_table_add_row, hu, if_true]
    exact updateFirst_hide_all st.options code hnd
  · intro hall o ho hv
    simp only [dynamic_table_handle_selector_input, List.mem_map] at ho
    obtain ⟨o₀, ho₀, rfl⟩ := ho
    by_cases hh : st.is_unique && o₀.hidden
    · rw [if_pos hh] at hv ⊢
      exact hall o₀ ho₀ hv
    · rw [if_neg hh] at hv
      have : o₀.hidden = true := hall o₀ ho₀ hv
      rw [hu] at hh
      simp [this] at hh
  · intro r hr
    rcases keydown_rows st k fetchOk with h | ⟨o, ho, hoh, h⟩
    · rw [h] at hr
      exact Or.inl hr
    · rw [h] at hr
      rcases List.mem_append.mp hr with h' | h'
      · exact Or.inl h'
      · rcases List.mem_singleton.mp h' with rfl
        exact Or.inr ⟨o, ho, hoh, rfl⟩
  · intro hnd
    simp only [dynamic_table_delete_row, hu, if_true]
    exact fun o ho hv => updateFirst_unhide_all _ code hnd o ho hv

theorem unique_catalogue_spec_witness :
    ((dynamic_table_add_row
        (DynState.mk 0 [] [SelOption.mk "01" "x" "01" false false] true [] true (-1))
        "01" true).2.1.options.all
      fun o => if o.value = "01" then o.hidden else true) = true := by
  have h := (unique_catalogue_spec
    (DynState.mk 0 [] [SelOption.mk "01" "x" "01" false false] true [] true (-1))
    "01" [] Key.enter true 0 rfl).1 (by decide)
  rw [List.all_eq_true]
  intro o ho
  by_cases hv : o.value = "01"
  · simp [hv, h o ho hv]
  · simp [hv]

/-! ### C2: save gating -/

/-- C2 counterexample: with the last successful save at time 0 and a call at
`now = 3000`, the elapsed time (3000 ms) does not exceed the cooldown, yet
the save is *not* rejected: it proceeds, issues the network call and
records the new save time. -/
theorem table_save_cooldown_counterexample :
    (3000 : ℤ) - 0 ≤ SAVE_COOLDOWN_MS ∧
    (table_save
      (TableState.mk "HORIZONTAL_STATIC_UNIQUE"
        [(0, { numbers := [NumberInput.mk "A" ['5'] false false none none none none] })]
        false 0) 3000 true 3500).1 = true ∧
    ((table_save
      (TableState.mk "HORIZONTAL_STATIC_UNIQUE"
        [(0, { numbers := [NumberInput.mk "A" ['5'] false false none none none none] })]
        false 0) 3000 true 3500).2.2.any fun e => isNetworkEffect e) = true ∧
    (table_save
      (TableState.mk "HORIZONTAL_STATIC_UNIQUE"
        [(0, { numbers := [NumberInput.mk "A" ['5'] false false none none none none] })]
        false 0) 3000 true 3500).2.1.last_save_time = 3500 := by
  refine ⟨by decide, by decide, by decide, by decide⟩

/-- C2 (amended): a `table_save` call while a save is in flight, or when the
elapsed time since the last successful save is *strictly less than* the
3000 ms cooldown, returns false without issuing any network call and with
the grid state (serialized data, `last_save_time`, pending flag)
unchanged; in the cooldown case a toast stating the remaining wait time
(seconds, rounded up) is shown, in the in-flight case nothing is. -/
theorem table_save_reject_spec (st : TableState) (now : ℤ) (netOk : Bool)
    (ackTime : ℤ) :
    (st.pending_save = true →
      table_save st now netOk ackTime = (false, st, [])) ∧
    (st.pending_save = false → now - st.last_save_time < SAVE_COOLDOWN_MS →
      table_save st now netOk ackTime
        = (false, st,
            [Effect.toast
              ("Poczekaj ".toList ++
                (toString
                  (⌈(((SAVE_COOLDOWN_MS : ℚ) - ((now - st.last_save_time : ℤ) : ℚ)) / 1000)⌉ : ℤ)).toList ++
                "s przed kolejnym zapisem".toList) "warning"])) ∧
    ((st.pending_save = true ∨ now - st.last_save_time < SAVE_COOLDOWN_MS) →
      (table_save st now netOk ackTime).1 = false ∧
      (table_save st now netOk ackTime).2.1 = st ∧
      ((table_save st now netOk ackTime).2.2.all fun e => !isNetworkEffect e) = true) := by
  refine ⟨?_, ?_, ?_⟩
  · intro hp
    rw [table_save, if_pos hp]
  · intro hp hc
    rw [table_save, if_neg (by simp [hp]), if_pos hc]
  · intro h
    by_cases hp : st.pending_save = true
    · rw [table_save, if_pos hp]
      exact ⟨rfl, rfl, rfl⟩
    · have hc : now - st.last_save_time < SAVE_COOLDOWN_MS := by
        rcases h with h | h
        · exact absurd h hp
        · exact h
      rw [table_save, if_neg hp, if_pos hc]
      exact ⟨rfl, rfl, by simp [isNetworkEffect]⟩

theorem table_save_reject_spec_witness :
    table_save (TableState.mk "HORIZONTAL_STATIC_UNIQUE" [] true 0) 100 true 200
      = (false, TableState.mk "HORIZONTAL_STATIC_UNIQUE" [] true 0, []) ∧
    (table_save (TableState.mk "HORIZONTAL_STATIC_UNIQUE" [] false 0) 100 true 200).1
      = false :=
  ⟨(table_save_reject_spec (TableState.mk "HORIZONTAL_STATIC_UNIQUE" [] true 0)
      100 true 200).1 rfl,
   ((table_save_reject_spec (TableState.mk "HORIZONTAL_STATIC_UNIQUE" [] false 0)
      100 true 200).2.2 (Or.inr (by decide))).1⟩

/-! ### C3: row validation -/

theorem stepsAnd_snd {α : Type} (f : α → α × Bool) (l : List α) :
    (stepsAnd f l).2 = l.all fun a => (f a).2 := by
  induction l with
  | nil => rfl
  | cons a l ih => simp [stepsAnd, ih]

theorem number_step_snd (i : NumberInput) :
    (number_validate_step i).2 = (i.readonly || (validate_number_required i).isNone) := by
  rw [number_validate_step]
  by_cases h : i.readonly = true
  · simp [h]
  · cases hv : validate_number_required i <;> simp [h, hv]

theorem string_step_snd (i : StringInput) :
    (string_validate_step i).2 = (i.readonly || (validate_string_required i).isNone) := by
  rw [string_validate_step]
  by_cases h : i.readonly = true
  · simp [h]
  · cases hv : validate_string_required i <;> simp [h, hv]

theorem enum_step_snd (e : EnumField) :
    (enum_validate_step e).2 = (e.visibleReadonly || (validate_enum_required e).isNone) := by
  rw [enum_validate_step]
  by_cases h : e.visibleReadonly = true
  · simp [h]
  · cases hv : validate_enum_required e <;> simp [h, hv]

theorem multi_step_snd (m : MultiField) :
    (multi_validate_step m).2 = (validate_multi_exclusive_required m).isNone := by
  rw [multi_validate_step]
  cases hv : validate_multi_exclusive_required m <;> simp [hv]

theorem cell_validate_snd (c : Cell) :
    (cell_validate c).2
      = ((c.numbers.all fun i => i.readonly || (validate_number_required i).isNone) &&
         (c.strings.all fun i => i.readonly || (validate_string_required i).isNone) &&
         (c.enums.all fun e => e.visibleReadonly || (validate_enum_required e).isNone) &&
         (c.multis.all fun m => (validate_multi_exclusive_required m).isNone)) := by
  simp only [cell_validate, stepsAnd_snd, number_step_snd, string_step_snd,
    enum_step_snd, multi_step_snd]

theorem rowMarksClear_clear_errors (cells : List Cell) :
    rowMarksClear (row_cells_clear_errors cells) = true := by
  rw [rowMarksClear, List.all_eq_true]
  intro c hc
  rcases List.mem_map.mp hc with ⟨c₀, _, rfl⟩
  simp [List.all_map, Function.comp]

/-- C3: a row whose non-readonly inputs are all blank validates as true and
has every error marker cleared, required flags notwithstanding; a row with
data validates as true exactly when every non-readonly (non-blocked)
field satisfies its constraint. -/
theorem row_cells_validate_spec (cells : List Cell) :
    (row_cells_has_data cells = false →
      row_cells_validate cells = (true, row_cells_clear_errors cells) ∧
      rowMarksClear (row_cells_validate cells).2 = true) ∧
    (row_cells_has_data cells = true →
      (row_cells_validate cells).1 = rowConstraintsOk cells) := by
  constructor
  · intro h
    have he : row_cells_validate cells = (true, row_cells_clear_errors cells) := by
      rw [row_cells_validate, h]
      rfl
    exact ⟨he, by rw [he]; exact rowMarksClear_clear_errors cells⟩
  · intro h
    rw [row_cells_validate, h]
    show (stepsAnd cell_validate cells).2 = rowConstraintsOk cells
    rw [stepsAnd_snd, rowConstraintsOk]
    simp only [cell_validate_snd]

theorem row_cells_validate_spec_witness :
    row_cells_validate
        [{ numbers := [NumberInput.mk "A" [' '] false true none none none
            (some ("stare".toList, "error".toList))] }]
      = (true, row_cells_clear_errors
          [{ numbers := [NumberInput.mk "A" [' '] false true none none none
              (some ("stare".toList, "error".toList))] }]) ∧
    (row_cells_validate
        [{ numbers := [NumberInput.mk "A" ['5'] false false none none none none] }]).1
      = rowConstraintsOk
          [{ numbers := [NumberInput.mk "A" ['5'] false false none none none none] }] :=
  ⟨((row_cells_validate_spec
      [{ numbers := [NumberInput.mk "A" [' '] false true none none none
          (some ("stare".toList, "error".toList))] }]).1 (by decide)).1,
   (row_cells_validate_spec
      [{ numbers := [NumberInput.mk "A" ['5'] false false none none none none] }]).2
     (by decide)⟩

/-! ### C7: serialization omission -/

theorem filterMap_if_eq_map_filter {α β : Type} (p : α → Bool) (f : α → β) :
    ∀ l : List α,
      (l.filterMap fun x => if p x then some (f x) else none) = (l.filter p).map f := by
  intro l
  induction l with
  | nil => rfl
  | cons a l ih =>
    by_cases h : p a = true <;> simp [List.filterMap_cons, List.filter_cons, h, ih]

theorem mem_keys_assocSet (d : List (String × SVal)) (k k' : String) (v : SVal) :
    k' ∈ (assocSet d k v).map Prod.fst ↔ k' ∈ d.map Prod.fst ∨ k' = k := by
  rw [assocSet]
  by_cases hany : (d.any fun kv => kv.1 = k) = true
  · rw [if_pos hany]
    rw [List.any_eq_true] at hany
    obtain ⟨kv₀, hkv₀, hk₀⟩ := hany
    rw [decide_eq_true_eq] at hk₀
    simp only [List.map_map, List.mem_map, Function.comp]
    constructor
    · rintro ⟨kv, hkv, hfst⟩
      by_cases hk : kv.1 = k
      · rw [if_pos hk] at hfst
        exact Or.inr hfst.symm
      · rw [if_neg hk] at hfst
        exact Or.inl ⟨kv, hkv, hfst⟩
    · rintro (⟨kv, hkv, hfst⟩ | rfl)
      · by_cases hk : kv.1 = k
        · exact ⟨kv₀, hkv₀, by rw [if_pos hk₀]; rw [← hfst, hk]⟩
        · exact ⟨kv, hkv, by rw [if_neg hk]; exact hfst⟩
      · exact ⟨kv₀, hkv₀, by rw [if_pos hk₀]⟩
  · rw [if_neg hany]
    simp

theorem keys_foldl {α : Type} (step : List (String × SVal) → α → List (String × SVal))
    (Q : α → String → Prop)
    (hstep : ∀ d x k, k ∈ (step d x).map Prod.fst ↔ (k ∈ d.map Prod.fst ∨ Q x k)) :
    ∀ (l : List α) (d : List (String × SVal)) (k : String),
      k ∈ ((l.foldl step d).map Prod.fst) ↔
        (k ∈ d.map Prod.fst ∨ ∃ x ∈ l, Q x k) := by
  intro l
  induction l with
  | nil => simp
  | cons a l ih =>
    intro d k
    rw [List.foldl_cons, ih, hstep]
    simp only [List.mem_cons]
    constructor
    · rintro ((h | h) | ⟨x, hx, hq⟩)
      · exact Or.inl h
      · exact Or.inr ⟨a, Or.inl rfl, h⟩
      · exact Or.inr ⟨x, Or.inr hx, hq⟩
    · rintro (h | ⟨x, (rfl | hx), hq⟩)
      · exact Or.inl (Or.inl h)
      · exact Or.inl (Or.inr hq)
      · exact Or.inr ⟨x, hx, hq⟩

theorem keys_number_fold (c : List NumberInput) (d : List (String × SVal)) (k : String) :
    k ∈ ((c.foldl (fun d i =>
        match number_value_parse i.value with
        | some q => assocSet d i.name (SVal.num q)
        | none => d) d).map Prod.fst) ↔
      (k ∈ d.map Prod.fst ∨
        ∃ i ∈ c, (number_value_parse i.value).isSome = true ∧ i.name = k) := by
  refine keys_foldl _ (fun i k => (number_value_parse i.value).isSome = true ∧ i.name = k)
    ?_ c d k
  intro d i k
  dsimp only
  rcases hp : number_value_parse i.value with _ | q
  · simp [hp]
  · dsimp only
    rw [mem_keys_assocSet]
    simp [eq_comm]

theorem keys_string_fold (c : List StringInput) (d : List (String × SVal)) (k : String) :
    k ∈ ((c.foldl (fun d i =>
        let v := trimChars i.value
        if v.isEmpty then d else assocSet d i.name (SVal.str v)) d).map Prod.fst) ↔
      (k ∈ d.map Prod.fst ∨
        ∃ i ∈ c, (trimChars i.value).isEmpty = false ∧ i.name = k) := by
  refine keys_foldl _ (fun i k => (trimChars i.value).isEmpty = false ∧ i.name = k)
    ?_ c d k
  intro d i k
  dsimp only
  by_cases hp : (trimChars i.value).isEmpty = true
  · simp [hp]
  · rw [if_neg hp, mem_keys_assocSet]
    simp [hp, eq_comm]

theorem keys_enum_fold (c : List EnumField) (d : List (String × SVal)) (k : String) :
    k ∈ ((c.foldl (fun d e =>
        if e.hiddenValue.isEmpty then d else assocSet d e.name (SVal.str e.hiddenValue))
          d).map Prod.fst) ↔
      (k ∈ d.map Prod.fst ∨
        ∃ e ∈ c, e.hiddenValue.isEmpty = false ∧ e.name = k) := by
  refine keys_foldl _ (fun e k => e.hiddenValue.isEmpty = false ∧ e.name = k) ?_ c d k
  intro d e k
  dsimp only
  by_cases hp : e.hiddenValue.isEmpty = true
  · simp [hp]
  · rw [if_neg hp, mem_keys_assocSet]
    simp [hp, eq_comm]

theorem keys_multi_fold (c : List MultiField) (d : List (String × SVal)) (k : String) :
    k ∈ ((c.foldl (fun d m =>
        if m.value.isEmpty then d else assocSet d m.name (SVal.str m.value))
          d).map Prod.fst) ↔
      (k ∈ d.map Prod.fst ∨ ∃ m ∈ c, m.value.isEmpty = false ∧ m.name = k) := by
  refine keys_foldl _ (fun m k => m.value.isEmpty = false ∧ m.name = k) ?_ c d k
  intro d m k
  dsimp only
  by_cases hp : m.value.isEmpty = true
  · simp [hp]
  · rw [if_neg hp, mem_keys_assocSet]
    simp [hp, eq_comm]

/-- The keys of the serialized row object are exactly the passing fields. -/
theorem keys_serializeRow (cells : List Cell) (k : String) :
    k ∈ ((serializeRow cells).map Prod.fst) ↔ rowFieldPasses cells k = true := by
  have hstep : ∀ (d : List (String × SVal)) (c : Cell) (k : String),
      k ∈ ((c.multis.foldl (fun d m =>
              if m.value.isEmpty then d else assocSet d m.name (SVal.str m.value))
            (c.enums.foldl (fun d e =>
              if e.hiddenValue.isEmpty then d else assocSet d e.name (SVal.str e.hiddenValue))
            (c.strings.foldl (fun d i =>
              let v := trimChars i.value
              if v.isEmpty then d else assocSet d i.name (SVal.str v))
            (c.numbers.foldl (fun d i =>
              match number_value_parse i.value with
              | some q => assocSet d i.name (SVal.num q)
              | none => d) d)))).map Prod.fst) ↔
        (k ∈ d.map Prod.fst ∨
          ((∃ i ∈ c.numbers, (number_value_parse i.value).isSome = true ∧ i.name = k) ∨
           (∃ i ∈ c.strings, (trimChars i.value).isEmpty = false ∧ i.name = k) ∨
           (∃ e ∈ c.enums, e.hiddenValue.isEmpty = false ∧ e.name = k) ∨
           (∃ m ∈ c.multis, m.value.isEmpty = false ∧ m.name = k))) := by
    intro d c k
    rw [keys_multi_fold, keys_enum_fold, keys_string_fold, keys_number_fold]
    simp only [or_assoc]
  refine Iff.trans
    (keys_foldl _ (fun c k =>
      (∃ i ∈ c.numbers, (number_value_parse i.value).isSome = true ∧ i.name = k) ∨
      (∃ i ∈ c.strings, (trimChars i.value).isEmpty = false ∧ i.name = k) ∨
      (∃ e ∈ c.enums, e.hiddenValue.isEmpty = false ∧ e.name = k) ∨
      (∃ m ∈ c.multis, m.value.isEmpty = false ∧ m.name = k))
      hstep cells [] k) ?_
  simp only [List.map_nil, List.not_mem_nil, false_or, rowFieldPasses,
    List.any_eq_true, Bool.or_eq_true, Bool.and_eq_true, decide_eq_true_eq,
    Bool.not_eq_true', or_assoc]

/-- C7 counterexample: a row whose only non-blank field is the number input
`"A"` holding `"-"` (non-empty after trimming) *is* serialized, but as the
empty object: the produced entry does not contain that field's key. -/
theorem table_serialize_counterexample :
    table_serialize
        [(0, { numbers := [NumberInput.mk "A" ['-'] false false none none none none] })]
      = [[]] ∧
    (trimChars ['-']).isEmpty = false := by
  exact ⟨by decide, by decide⟩

/-- C7 (amended): rows whose non-readonly fields all trim to empty produce no
entry in the serialized array; every produced row object contains exactly
the keys of fields whose value survives its per-field rule (numeric text
that parses, non-empty trimmed strings, non-empty enum/multi-select
values) — so a row with exactly one non-empty field yields an object with
at most that field's key, and with exactly that key when the value
serializes. -/
theorem table_serialize_spec (g : List (ℕ × Cell)) :
    (table_serialize g
      = ((all_row_indices_get g).filter fun idx =>
          row_cells_has_data (row_cells_get g idx)).map fun idx =>
          serializeRow (row_cells_get g idx)) ∧
    (∀ (cells : List Cell) (k : String),
      k ∈ ((serializeRow cells).map Prod.fst) ↔ rowFieldPasses cells k = true) := by
  constructor
  · exact filterMap_if_eq_map_filter _ _ (all_row_indices_get g)
  · exact keys_serializeRow

/-! ### C1: digit-string lemmas -/

theorem digitChar_ext_facts : ∀ k, k < 10 →
    charVal (digitChar k) = k ∧ digitChar k ≠ '+' ∧ digitChar k ≠ ' ' := by decide

theorem natToDigits_props (n : ℕ) : ∀ c ∈ natToDigits n,
    c.isDigit = true ∧ c.isWhitespace = false ∧ c ≠ '.' ∧ c ≠ ',' ∧ c ≠ '-' := by
  intro c hc
  obtain ⟨k, hk, rfl⟩ := natToDigits_mem n c hc
  exact digitChar_facts k hk

theorem natToDigits_ne_nil (n : ℕ) : natToDigits n ≠ [] := by
  rw [natToDigits]
  split_ifs <;> simp

theorem digitsToNat_append_one (l : List Char) (c : Char) :
    digitsToNat (l ++ [c]) = 10 * digitsToNat l + charVal c := by
  simp [digitsToNat, List.foldl_append]

theorem digitsToNat_natToDigits (n : ℕ) : digitsToNat (natToDigits n) = n := by
  induction n using Nat.strong_induction_on with
  | _ n ih =>
    rw [natToDigits]
    by_cases h : n < 10
    · simp only [h, dif_pos]
      show 10 * 0 + charVal (digitChar n) = n
      rw [(digitChar_ext_facts n h).1]
      omega
    · rw [dif_neg h, digitsToNat_append_one,
        ih (n / 10) (Nat.div_lt_self (by omega) (by omega)),
        (digitChar_ext_facts (n % 10) (Nat.mod_lt _ (by omega))).1]
      omega

theorem natToDigits_length_le (d : ℕ) : ∀ n : ℕ, 1 ≤ d → n < 10 ^ d →
    (natToDigits n).length ≤ d := by
  induction d with
  | zero => omega
  | succ d ihd =>
    intro n _ h
    rw [natToDigits]
    by_cases h10 : n < 10
    · rw [dif_pos h10]
      simp
    · rw [dif_neg h10, List.length_append, List.length_singleton]
      have hd1 : 1 ≤ d := by
        rcases Nat.eq_zero_or_pos d with rfl | hp
        · simp at h; omega
        · exact hp
      have hlt : n / 10 < 10 ^ d := by
        rw [Nat.div_lt_iff_lt_mul (by omega)]
        calc n < 10 ^ (d + 1) := h
        _ = 10 ^ d * 10 := by ring
      have := ihd (n / 10) hd1 hlt
      omega

theorem digitsToNat_replicate_zero (k : ℕ) (l : List Char) :
    digitsToNat (List.replicate k '0' ++ l) = digitsToNat l := by
  induction k with
  | zero => rfl
  | succ k ih =>
    rw [List.replicate_succ, List.cons_append]
    show digitsToNat (List.replicate k '0' ++ l) = _
    exact ih

theorem digitsToNat_leftPad (d : ℕ) (l : List Char) :
    digitsToNat (leftPadZeros d l) = digitsToNat l :=
  digitsToNat_replicate_zero _ _

theorem leftPad_length (d : ℕ) (l : List Char) (h : l.length ≤ d) :
    (leftPadZeros d l).length = d := by
  rw [leftPadZeros, List.length_append, List.length_replicate]
  omega

theorem leftPad_props (d : ℕ) (l : List Char) (hl : ∀ c ∈ l, c.isDigit = true) :
    ∀ c ∈ leftPadZeros d l,
      c.isDigit = true ∧ c.isWhitespace = false ∧ c ≠ '.' ∧ c ≠ ',' ∧ c ≠ '-' := by
  intro c hc
  rcases List.mem_append.mp hc with h | h
  · rcases List.eq_of_mem_replicate h with rfl
    exact (by decide : ('0').isDigit = true ∧ ('0').isWhitespace = false ∧
      ('0') ≠ '.' ∧ ('0') ≠ ',' ∧ ('0') ≠ '-')
  · have hd := hl c h
    have : ∀ x : Char, x.isDigit = true →
        x.isWhitespace = false ∧ x ≠ '.' ∧ x ≠ ',' ∧ x ≠ '-' := by
      intro x hx
      refine ⟨?_, ?_, ?_, ?_⟩
      · by_cases hw : x.isWhitespace = true
        · exfalso
          simp only [Char.isWhitespace, Bool.or_eq_true, decide_eq_true_eq] at hw
          rcases hw with ((rfl | rfl) | rfl) | rfl <;> revert hx <;> decide
        · cases hxw : x.isWhitespace
          · rfl
          · exact absurd hxw hw
      · rintro rfl; revert hx; decide
      · rintro rfl; revert hx; decide
      · rintro rfl; revert hx; decide
    exact ⟨hd, this c hd⟩

theorem takeWhile_all_of {α : Type} (p : α → Bool) (l : List α)
    (h : ∀ c ∈ l, p c = true) : l.takeWhile p = l := by
  induction l with
  | nil => rfl
  | cons a l ih =>
    rw [List.takeWhile_cons_of_pos (h a (List.mem_cons_self a l))]
    rw [ih fun c hc => h c (List.mem_cons_of_mem a hc)]

theorem dropWhile_all_of {α : Type} (p : α → Bool) (l : List α)
    (h : ∀ c ∈ l, p c = true) : l.dropWhile p = [] := by
  induction l with
  | nil => rfl
  | cons a l ih =>
    rw [List.dropWhile_cons_of_pos (h a (List.mem_cons_self a l))]
    exact ih fun c hc => h c (List.mem_cons_of_mem a hc)

theorem takeWhile_append_all {α : Type} (p : α → Bool) (xs ys : List α)
    (h : ∀ c ∈ xs, p c = true) :
    (xs ++ ys).takeWhile p = xs ++ ys.takeWhile p := by
  induction xs with
  | nil => rfl
  | cons a xs ih =>
    rw [List.cons_append, List.takeWhile_cons_of_pos (h a (List.mem_cons_self a xs)),
      ih fun c hc => h c (List.mem_cons_of_mem a hc), List.cons_append]

theorem dropWhile_append_all {α : Type} (p : α → Bool) (xs ys : List α)
    (h : ∀ c ∈ xs, p c = true) :
    (xs ++ ys).dropWhile p = ys.dropWhile p := by
  induction xs with
  | nil => rfl
  | cons a xs ih =>
    rw [List.cons_append, List.dropWhile_cons_of_pos (h a (List.mem_cons_self a xs))]
    exact ih fun c hc => h c (List.mem_cons_of_mem a hc)

theorem replaceFirst_not_mem (a b : Char) (l : List Char) (h : a ∉ l) :
    replaceFirst a b l = l := by
  induction l with
  | nil => rfl
  | cons c cs ih =>
    rw [replaceFirst, if_neg (by rintro rfl; exact h (List.mem_cons_self c cs))]
    rw [ih fun hc => h (List.mem_cons_of_mem c hc)]

theorem replaceFirst_append (a b : Char) (xs ys : List Char) (h : a ∉ xs) :
    replaceFirst a b (xs ++ a :: ys) = xs ++ b :: ys := by
  induction xs with
  | nil => simp [replaceFirst]
  | cons c cs ih =>
    rw [List.cons_append, replaceFirst,
      if_neg (by rintro rfl; exact h (List.mem_cons_self c cs)),
      ih fun hc => h (List.mem_cons_of_mem c hc), List.cons_append]

theorem splitOnChar_not_mem (sep : Char) (l : List Char) (h : sep ∉ l) :
    splitOnChar sep l = [l] := by
  induction l with
  | nil => rfl
  | cons c cs ih =>
    rw [splitOnChar, if_neg (by rintro rfl; exact h (List.mem_cons_self c cs)),
      ih fun hc => h (List.mem_cons_of_mem c hc)]

theorem splitOnChar_append (sep : Char) (a b : List Char) (h : sep ∉ a) :
    splitOnChar sep (a ++ sep :: b) = a :: splitOnChar sep b := by
  induction a with
  | nil => simp [splitOnChar]
  | cons c cs ih =>
    rw [List.cons_append, splitOnChar,
      if_neg (by rintro rfl; exact h (List.mem_cons_self c cs)),
      ih fun hc => h (List.mem_cons_of_mem c hc)]

theorem groupThreesAux_filter : ∀ (n : ℕ) (l : List Char), l.length = n →
    (∀ c ∈ l, c.isWhitespace = false) →
    (groupThreesAux l).filter (fun c => !c.isWhitespace) = l := by
  intro n
  induction n using Nat.strong_induction_on with
  | _ n ih =>
    intro l hl hws
    rw [groupThreesAux]
    split_ifs with h3
    · exact List.filter_eq_self.mpr fun a ha => by rw [hws a ha]; rfl
    · rw [List.filter_append, List.filter_cons]
      have hsp : ((' ' : Char).isWhitespace = true) := by decide
      simp only [hsp, Bool.not_true, Bool.false_eq_true, if_false]
      rw [List.filter_eq_self.mpr fun a ha => by
          rw [hws a (List.take_subset 3 l ha)]; rfl,
        ih (l.drop 3).length (by simp [List.length_drop]; omega) (l.drop 3) rfl
          (fun c hc => hws c (List.drop_subset 3 l hc)),
        List.take_append_drop]

theorem filter_groupThrees (cs : List Char)
    (h : ∀ c ∈ cs, c.isWhitespace = false) :
    (groupThrees cs).filter (fun c => !c.isWhitespace) = cs := by
  rw [groupThrees, List.filter_reverse,
    groupThreesAux_filter cs.reverse.length cs.reverse rfl
      (fun c hc => h c (List.mem_reverse.mp hc)),
    List.reverse_reverse]

theorem intRepr_props (m : ℤ) : ∀ c ∈ intRepr m,
    c.isWhitespace = false ∧ c ≠ '.' ∧ c ≠ ',' := by
  intro c hc
  rw [intRepr] at hc
  rcases List.mem_append.mp hc with h | h
  · split_ifs at h
    · rcases List.mem_singleton.mp h with rfl
      exact ⟨by decide, by decide, by decide⟩
    · simp at h
  · have := natToDigits_props _ c h
    exact ⟨this.2.1, this.2.2.1, this.2.2.2.1⟩

theorem digit_aux (c : Char) (h : c.isDigit = true) :
    c ≠ '-' ∧ c ≠ '+' ∧ c ≠ '.' ∧ c ≠ ',' := by
  refine ⟨?_, ?_, ?_, ?_⟩ <;> rintro rfl <;> revert h <;> decide

theorem parseFloatQ_int_digits (c : Char) (cs : List Char)
    (hI : ∀ x ∈ c :: cs, x.isDigit = true) :
    parseFloatQ (c :: cs) = some (digitsToNat (c :: cs) : ℚ) := by
  have hc := hI c (List.mem_cons_self _ _)
  have hcd := digit_aux c hc
  rw [parseFloatQ]
  simp only [List.headD_cons]
  rw [if_neg (show ¬((decide (c = '-') || decide (c = '+')) = true) from by
    simp [hcd.1, hcd.2.1])]
  rw [takeWhile_all_of _ _ hI, dropWhile_all_of _ _ hI]
  simp only [List.headD_nil]
  rw [if_neg (show ¬((' ' : Char) = '.') from by decide)]
  rw [if_neg (show ¬((c :: cs).isEmpty = true ∧ (List.isEmpty ([] : List Char)) = true)
    from by simp)]
  rw [if_neg (show ¬(c = '-') from hcd.1)]
  norm_num [digitsToNat]

theorem parseFloatQ_frac_digits (c : Char) (cs D : List Char)
    (hI : ∀ x ∈ c :: cs, x.isDigit = true) (hD : ∀ x ∈ D, x.isDigit = true) :
    parseFloatQ ((c :: cs) ++ '.' :: D)
      = some ((digitsToNat (c :: cs) : ℚ) + (digitsToNat D : ℚ) / 10 ^ D.length) := by
  have hc := hI c (List.mem_cons_self _ _)
  have hcd := digit_aux c hc
  have hdot : (('.' : Char).isDigit = false) := by decide
  have htake : ((c :: cs) ++ '.' :: D).takeWhile Char.isDigit = c :: cs := by
    rw [takeWhile_append_all _ _ _ hI, List.takeWhile_cons_of_neg (by simp [hdot]),
      List.append_nil]
  have hdrop : ((c :: cs) ++ '.' :: D).dropWhile Char.isDigit = '.' :: D := by
    rw [dropWhile_append_all _ _ _ hI, List.dropWhile_cons_of_neg (by simp [hdot])]
  rw [parseFloatQ]
  simp only [List.cons_append, List.headD_cons] at htake hdrop ⊢
  rw [if_neg (show ¬((decide (c = '-') || decide (c = '+')) = true) from by
    simp [hcd.1, hcd.2.1])]
  rw [htake, hdrop]
  simp only [List.headD_cons, List.tail_cons]
  rw [if_pos (show True from trivial), takeWhile_all_of _ _ hD]
  rw [if_neg (show ¬((c :: cs).isEmpty = true ∧ D.isEmpty = true) from by simp)]
  rw [if_neg (show ¬(c = '-') from hcd.1)]

theorem parseFloatQ_neg_int_digits (c : Char) (cs : List Char)
    (hI : ∀ x ∈ c :: cs, x.isDigit = true) :
    parseFloatQ ('-' :: c :: cs) = some (-(digitsToNat (c :: cs) : ℚ)) := by
  rw [parseFloatQ]
  simp only [List.headD_cons, List.tail_cons]
  rw [if_pos (show (decide True || decide (('-' : Char) = '+')) = true from by decide)]
  rw [takeWhile_all_of _ _ hI, dropWhile_all_of _ _ hI]
  simp only [List.headD_nil]
  rw [if_neg (show ¬((' ' : Char) = '.') from by decide)]
  rw [if_neg (show ¬((c :: cs).isEmpty = true ∧ (List.isEmpty ([] : List Char)) = true)
    from by simp)]
  rw [if_pos (show True from trivial)]
  norm_num [digitsToNat]

theorem parseFloatQ_neg_frac_digits (c : Char) (cs D : List Char)
    (hI : ∀ x ∈ c :: cs, x.isDigit = true) (hD : ∀ x ∈ D, x.isDigit = true) :
    parseFloatQ ('-' :: ((c :: cs) ++ '.' :: D))
      = some (-((digitsToNat (c :: cs) : ℚ) + (digitsToNat D : ℚ) / 10 ^ D.length)) := by
  have hdot : (('.' : Char).isDigit = false) := by decide
  have htake : ((c :: cs) ++ '.' :: D).takeWhile Char.isDigit = c :: cs := by
    rw [takeWhile_append_all _ _ _ hI, List.takeWhile_cons_of_neg (by simp [hdot]),
      List.append_nil]
  have hdrop : ((c :: cs) ++ '.' :: D).dropWhile Char.isDigit = '.' :: D := by
    rw [dropWhile_append_all _ _ _ hI, List.dropWhile_cons_of_neg (by simp [hdot])]
  rw [parseFloatQ]
  simp only [List.cons_append, List.headD_cons, List.tail_cons] at htake hdrop ⊢
  rw [if_pos (show (decide True || decide (('-' : Char) = '+')) = true from by decide)]
  rw [htake, hdrop]
  simp only [List.headD_cons, List.tail_cons]
  rw [if_pos (show True from trivial), takeWhile_all_of _ _ hD]
  rw [if_neg (show ¬((c :: cs).isEmpty = true ∧ D.isEmpty = true) from by simp)]
  rw [if_pos (show True from trivial)]

theorem not_dot_signed_digits (p : Prop) [Decidable p] (x : ℕ) :
    '.' ∉ (if p then ['-'] else []) ++ natToDigits x := by
  intro hc
  rcases List.mem_append.mp hc with h | h
  · split_ifs at h
    · rcases List.mem_singleton.mp h with h'
      exact absurd h' (by decide)
    · simp at h
  · exact (natToDigits_props _ _ h).2.2.1 rfl

theorem not_comma_signed_digits (p : Prop) [Decidable p] (x : ℕ) :
    ',' ∉ (if p then ['-'] else []) ++ natToDigits x := by
  intro hc
  rcases List.mem_append.mp hc with h | h
  · split_ifs at h
    · rcases List.mem_singleton.mp h with h'
      exact absurd h' (by decide)
    · simp at h
  · exact (natToDigits_props _ _ h).2.2.2.1 rfl

theorem nfv_dec0_nospace (v : ℚ) :
    number_format_value v ⟨false, 0⟩ = intRepr (jsRound v) := by
  rw [number_format_value]
  dsimp only
  rw [if_pos rfl]
  rw [replaceFirst_not_mem _ _ _ (fun hc => (intRepr_props _ _ hc).2.1 rfl)]
  rw [if_neg (show ¬(false = true) from by simp)]

theorem nfv_dec0_space (v : ℚ) :
    number_format_value v ⟨true, 0⟩
      = (if jsRound v < 0 then ['-'] else [])
          ++ groupThrees (natToDigits (jsRound v).natAbs) := by
  rw [number_format_value]
  dsimp only
  rw [if_pos (show (0 : ℕ) = 0 from rfl)]
  rw [replaceFirst_not_mem _ _ _ (fun hc => (intRepr_props _ _ hc).2.1 rfl)]
  rw [if_pos (show (true = true) from rfl)]
  rw [splitOnChar_not_mem _ _ (fun hc => (intRepr_props _ _ hc).2.2 rfl)]
  simp only [List.headD_cons, List.get?_cons_succ, List.get?_nil]
  rw [intRepr]
  by_cases hm : jsRound v < 0
  · rw [if_pos hm, List.singleton_append]
    have hsw : startsWithDash ('-' :: natToDigits (jsRound v).natAbs) = true := by
      simp [startsWithDash]
    simp [hsw]
  · rw [if_neg hm, List.nil_append]
    rcases hds : natToDigits (jsRound v).natAbs with _ | ⟨c, cs⟩
    · exact absurd hds (natToDigits_ne_nil _)
    · have hc : c ≠ '-' := by
        have := natToDigits_props (jsRound v).natAbs c (hds ▸ List.mem_cons_self _ _)
        exact this.2.2.2.2
      have hsw : startsWithDash (c :: cs) = false := by
        simp [startsWithDash, hc]
      simp [hsw]

theorem nfv_decpos_nospace (v : ℚ) (d : ℕ) (hd : d ≠ 0) :
    number_format_value v ⟨false, d⟩
      = (if v < 0 then ['-'] else [])
          ++ natToDigits ((jsRound (|v| * 10 ^ d)).toNat / 10 ^ d)
          ++ ',' :: leftPadZeros d (natToDigits ((jsRound (|v| * 10 ^ d)).toNat % 10 ^ d)) := by
  rw [number_format_value]
  dsimp only
  rw [if_neg hd, if_neg (show ¬(false = true) from by simp), toFixedChars]
  rw [replaceFirst_append _ _ _ _ (not_dot_signed_digits (v < 0) _)]

theorem nfv_decpos_space (v : ℚ) (d : ℕ) (hd : d ≠ 0) :
    number_format_value v ⟨true, d⟩
      = (if v < 0 then ['-'] else [])
          ++ groupThrees (natToDigits ((jsRound (|v| * 10 ^ d)).toNat / 10 ^ d))
          ++ ',' :: leftPadZeros d (natToDigits ((jsRound (|v| * 10 ^ d)).toNat % 10 ^ d)) := by
  have hpadlen : (leftPadZeros d
      (natToDigits ((jsRound (|v| * 10 ^ d)).toNat % 10 ^ d))).length = d :=
    leftPad_length d _ (natToDigits_length_le d _ (by omega)
      (Nat.mod_lt _ (Nat.pos_pow_of_pos d (by omega))))
  have hpadne : (leftPadZeros d
      (natToDigits ((jsRound (|v| * 10 ^ d)).toNat % 10 ^ d))).isEmpty = false := by
    rcases hp : leftPadZeros d (natToDigits ((jsRound (|v| * 10 ^ d)).toNat % 10 ^ d))
      with _ | ⟨c, cs⟩
    · rw [hp] at hpadlen
      simp at hpadlen
      omega
    · rfl
  rw [number_format_value]
  dsimp only
  rw [if_neg hd, toFixedChars]
  rw [replaceFirst_append _ _ _ _ (not_dot_signed_digits (v < 0) _)]
  rw [if_pos (show (true = true) from rfl)]
  rw [splitOnChar_append _ _ _ (not_comma_signed_digits (v < 0) _)]
  rw [splitOnChar_not_mem _ _ (fun hc =>
    (leftPad_props d _ (fun x hx => (natToDigits_props _ x hx).1) ',' hc).2.2.2.1 rfl)]
  simp only [List.headD_cons, List.get?_cons_succ, List.get?_cons_zero]
  rw [if_neg (show ¬((leftPadZeros d
      (natToDigits ((jsRound (|v| * 10 ^ d)).toNat % 10 ^ d))).isEmpty = true) from by
    rw [hpadne]; simp)]
  by_cases hv : v < 0
  · rw [if_pos hv, List.singleton_append]
    have hsw : startsWithDash
        ('-' :: natToDigits ((jsRound (|v| * 10 ^ d)).toNat / 10 ^ d)) = true := by
      simp [startsWithDash]
    simp [hsw]
  · rw [if_neg hv, List.nil_append]
    rcases hds : natToDigits ((jsRound (|v| * 10 ^ d)).toNat / 10 ^ d) with _ | ⟨c, cs⟩
    · exact absurd hds (natToDigits_ne_nil _)
    · have hc : c ≠ '-' :=
        (natToDigits_props _ c (hds ▸ List.mem_cons_self _ _)).2.2.2.2
      have hsw : startsWithDash (c :: cs) = false := by
        simp [startsWithDash, hc]
      simp [hsw]

theorem cast_natAbs_neg (m : ℤ) (hm : m < 0) : -((m.natAbs : ℚ)) = (m : ℚ) := by
  have h := Int.ofNat_natAbs_of_nonpos (le_of_lt hm)
  calc -((m.natAbs : ℚ)) = -(((m.natAbs : ℤ) : ℚ)) := by norm_cast
  _ = -(((-m : ℤ) : ℚ)) := by rw [h]
  _ = (m : ℚ) := by push_cast; ring

theorem cast_natAbs_nonneg (m : ℤ) (hm : ¬m < 0) : ((m.natAbs : ℚ)) = (m : ℚ) := by
  rw [Int.cast_natAbs]
  exact_mod_cast abs_of_nonneg (not_lt.mp hm)

theorem number_value_parse_int_form (m : ℤ) (l : List Char)
    (hfil : l.filter (fun c => !c.isWhitespace) = intRepr m) :
    number_value_parse l = some (m : ℚ) := by
  rw [number_value_parse, hfil,
    replaceFirst_not_mem _ _ _ (fun hc => (intRepr_props _ _ hc).2.2 rfl)]
  rw [intRepr]
  rcases hds : natToDigits m.natAbs with _ | ⟨c, cs⟩
  · exact absurd hds (natToDigits_ne_nil _)
  have hdig : ∀ x ∈ c :: cs, x.isDigit = true := fun x hx =>
    (natToDigits_props _ x (hds ▸ hx)).1
  have hcdash : c ≠ '-' := (natToDigits_props _ c (hds ▸ List.mem_cons_self _ _)).2.2.2.2
  have hval : digitsToNat (c :: cs) = m.natAbs := by
    rw [← hds, digitsToNat_natToDigits]
  by_cases hm : m < 0
  · rw [if_pos hm, List.singleton_append]
    rw [if_neg (show ¬('-' :: c :: cs = [] ∨ '-' :: c :: cs = ['-'] ∨
        '-' :: c :: cs = ['.']) from by simp)]
    rw [parseFloatQ_neg_int_digits c cs hdig, hval, cast_natAbs_neg m hm]
  · rw [if_neg hm, List.nil_append]
    rw [if_neg (show ¬(c :: cs = [] ∨ c :: cs = ['-'] ∨ c :: cs = ['.']) from by
      simp only [List.cons_ne_nil, false_or, List.cons_eq_cons, not_or]
      refine ⟨?_, ?_⟩ <;> intro h <;> rcases h with ⟨h1, _⟩
      · exact hcdash h1
      · have := hdig c (List.mem_cons_self _ _)
        rw [h1] at this
        exact absurd this (by decide))]
    rw [parseFloatQ_int_digits c cs hdig, hval, cast_natAbs_nonneg m hm]

theorem div_mod_cast_q (n d : ℕ) :
    ((n / 10 ^ d : ℕ) : ℚ) + ((n % 10 ^ d : ℕ) : ℚ) / 10 ^ d = (n : ℚ) / 10 ^ d := by
  have h10 : ((10 : ℚ) ^ d) ≠ 0 := by positivity
  rw [eq_div_iff h10, add_mul, div_mul_cancel₀ _ h10]
  norm_cast
  rw [mul_comm]
  exact Nat.div_add_mod n (10 ^ d)

theorem number_value_parse_frac_form (p : Prop) [Decidable p] (n d : ℕ)
    (hd : d ≠ 0) (l : List Char)
    (hfil : l.filter (fun c => !c.isWhitespace)
      = (if p then ['-'] else []) ++ natToDigits (n / 10 ^ d)
          ++ ',' :: leftPadZeros d (natToDigits (n % 10 ^ d))) :
    number_value_parse l
      = some (if p then -((n : ℚ) / 10 ^ d) else (n : ℚ) / 10 ^ d) := by
  rw [number_value_parse, hfil,
    replaceFirst_append _ _ _ _ (not_comma_signed_digits p _)]
  rcases hds : natToDigits (n / 10 ^ d) with _ | ⟨c, cs⟩
  · exact absurd hds (natToDigits_ne_nil _)
  have hdig : ∀ x ∈ c :: cs, x.isDigit = true := fun x hx =>
    (natToDigits_props _ x (hds ▸ hx)).1
  have hpads : ∀ x ∈ leftPadZeros d (natToDigits (n % 10 ^ d)), x.isDigit = true :=
    fun x hx => (leftPad_props d _ (fun y hy => (natToDigits_props _ y hy).1) x hx).1
  have hpadlen : (leftPadZeros d (natToDigits (n % 10 ^ d))).length = d :=
    leftPad_length d _ (natToDigits_length_le d _ (by omega)
      (Nat.mod_lt _ (Nat.pos_pow_of_pos d (by omega))))
  have hmodval : digitsToNat (leftPadZeros d (natToDigits (n % 10 ^ d))) = n % 10 ^ d := by
    rw [digitsToNat_leftPad, digitsToNat_natToDigits]
  have hdivval : digitsToNat (c :: cs) = n / 10 ^ d := by
    rw [← hds, digitsToNat_natToDigits]
  by_cases hp : p
  · rw [if_pos hp, List.singleton_append, List.cons_append]
    rw [if_neg (show ¬('-' :: (c :: cs ++ '.' ::
        leftPadZeros d (natToDigits (n % 10 ^ d))) = [] ∨ _ ∨ _) from by simp)]
    rw [show ('-' :: (c :: cs ++ '.' :: leftPadZeros d (natToDigits (n % 10 ^ d))))
        = '-' :: ((c :: cs) ++ '.' :: leftPadZeros d (natToDigits (n % 10 ^ d)))
      from rfl]
    rw [parseFloatQ_neg_frac_digits c cs _ hdig hpads, hdivval, hmodval, hpadlen,
      div_mod_cast_q, if_pos hp]
  · rw [if_neg hp, List.nil_append]
    have hcd := digit_aux c (hdig c (List.mem_cons_self _ _))
    rw [if_neg (show ¬((c :: cs) ++ '.' ::
        leftPadZeros d (natToDigits (n % 10 ^ d)) = [] ∨ _ ∨ _) from by
      simp only [List.cons_append, List.cons_ne_nil, false_or, List.cons_eq_cons, not_or]
      refine ⟨?_, ?_⟩ <;> intro h <;> rcases h with ⟨h1, _⟩
      · exact hcd.1 h1
      · exact hcd.2.2.1 h1)]
    rw [parseFloatQ_frac_digits c cs _ hdig hpads, hdivval, hmodval, hpadlen,
      div_mod_cast_q, if_neg hp]

theorem render_frac_chars_nonws (p : Prop) [Decidable p] (a b d : ℕ) :
    ∀ c ∈ (if p then ['-'] else []) ++ natToDigits a
        ++ ',' :: leftPadZeros d (natToDigits b),
      (!c.isWhitespace) = true := by
  intro c hc
  rcases List.mem_append.mp hc with h | h
  · rcases List.mem_append.mp h with h | h
    · split_ifs at h
      · rcases List.mem_singleton.mp h with rfl
        decide
      · simp at h
    · rw [(natToDigits_props _ _ h).2.1]
      rfl
  · rcases List.mem_cons.mp h with rfl | h
    · decide
    · rw [(leftPad_props d _ (fun y hy => (natToDigits_props _ y hy).1) _ h).2.1]
      rfl

theorem parse_render (v : ℚ) (sp : Bool) (d : ℕ) :
    number_value_parse (number_format_value v ⟨sp, d⟩) = some (renderedQ v d) := by
  by_cases hd : d = 0
  · subst hd
    rw [renderedQ, if_pos rfl]
    cases sp
    · rw [nfv_dec0_nospace]
      exact number_value_parse_int_form _ _ (List.filter_eq_self.mpr fun a ha => by
        rw [(intRepr_props _ a ha).1]; rfl)
    · rw [nfv_dec0_space]
      apply number_value_parse_int_form
      rw [List.filter_append,
        filter_groupThrees _ (fun c hc => (natToDigits_props _ c hc).2.1), intRepr]
      congr 1
      split_ifs <;> rfl
  · rw [renderedQ, if_neg hd]
    have hconv : ∀ X : ℚ,
        (if v < 0 then -X else X) = (if v < 0 then (-1 : ℚ) else 1) * X := by
      intro X
      split_ifs <;> ring
    cases sp
    · rw [nfv_decpos_nospace v d hd]
      rw [number_value_parse_frac_form (v < 0) _ d hd _
        (List.filter_eq_self.mpr (render_frac_chars_nonws (v < 0) _ _ d))]
      rw [hconv]
    · rw [nfv_decpos_space v d hd]
      have hfil : ((if v < 0 then ['-'] else [])
            ++ groupThrees (natToDigits ((jsRound (|v| * 10 ^ d)).toNat / 10 ^ d))
            ++ ',' :: leftPadZeros d
                (natToDigits ((jsRound (|v| * 10 ^ d)).toNat % 10 ^ d))).filter
              (fun c => !c.isWhitespace)
          = (if v < 0 then ['-'] else [])
            ++ natToDigits ((jsRound (|v| * 10 ^ d)).toNat / 10 ^ d)
            ++ ',' :: leftPadZeros d
                (natToDigits ((jsRound (|v| * 10 ^ d)).toNat % 10 ^ d)) := by
        rw [List.filter_append, List.filter_append,
          filter_groupThrees _ (fun c hc => (natToDigits_props _ c hc).2.1)]
        congr 1
        · congr 1
          split_ifs <;> rfl
        · rw [List.filter_cons]
          rw [if_pos (show (!(',' : Char).isWhitespace) = true from by decide)]
          rw [List.filter_eq_self.mpr fun a ha => by
            rw [(leftPad_props d _ (fun y hy => (natToDigits_props _ y hy).1) a ha).2.1]
            rfl]
      rw [number_value_parse_frac_form (v < 0) _ d hd _ hfil, hconv]

theorem floor_half_q : ⌊(1 / 2 : ℚ)⌋ = 0 := by
  norm_num [Int.floor_eq_iff]

theorem jsRound_intCast (m : ℤ) : jsRound ((m : ℤ) : ℚ) = m := by
  rw [jsRound, add_comm, Int.floor_add_int, floor_half_q, zero_add]

theorem jsRound_natCast (n : ℕ) : jsRound ((n : ℕ) : ℚ) = (n : ℤ) := by
  rw [show ((n : ℕ) : ℚ) = (((n : ℕ) : ℤ) : ℚ) from by push_cast; ring]
  exact jsRound_intCast _

theorem renderedQ_sign (v : ℚ) (d : ℕ) (hd : d ≠ 0)
    (h : 0 ≤ v ∨ jsRound (|v| * 10 ^ d) ≠ 0) :
    (renderedQ v d < 0) ↔ (v < 0) := by
  have hn0 : 0 ≤ jsRound (|v| * 10 ^ d) := by
    rw [jsRound]
    apply Int.floor_nonneg.mpr
    positivity
  rcases h with hv0 | hn
  · have hvn : ¬ v < 0 := not_lt.mpr hv0
    have hr : renderedQ v d = ((jsRound (|v| * 10 ^ d)).toNat : ℚ) / 10 ^ d := by
      rw [renderedQ, if_neg hd, if_neg hvn, one_mul]
    constructor
    · intro hlt
      rw [hr] at hlt
      exact absurd hlt (not_lt.mpr (by positivity))
    · intro hlt
      exact absurd hlt hvn
  · have hnpos : 0 < ((jsRound (|v| * 10 ^ d)).toNat : ℚ) / 10 ^ d := by
      apply div_pos
      · have hpos : 0 < (jsRound (|v| * 10 ^ d)).toNat := by omega
        exact_mod_cast hpos
      · positivity
    by_cases hv : v < 0
    · have hr : renderedQ v d
          = -1 * (((jsRound (|v| * 10 ^ d)).toNat : ℚ) / 10 ^ d) := by
        rw [renderedQ, if_neg hd, if_pos hv]
      rw [hr, neg_one_mul]
      exact ⟨fun _ => hv, fun _ => neg_lt_zero.mpr hnpos⟩
    · have hr : renderedQ v d
          = 1 * (((jsRound (|v| * 10 ^ d)).toNat : ℚ) / 10 ^ d) := by
        rw [renderedQ, if_neg hd, if_neg hv]
      rw [hr, one_mul]
      exact ⟨fun hlt => absurd hlt (not_lt.mpr (le_of_lt hnpos)), fun hlt => absurd hlt hv⟩

theorem renderedQ_key (v : ℚ) (d : ℕ) (hd : d ≠ 0) :
    jsRound (|renderedQ v d| * 10 ^ d) = ((jsRound (|v| * 10 ^ d)).toNat : ℤ) := by
  have habs : |renderedQ v d| = ((jsRound (|v| * 10 ^ d)).toNat : ℚ) / 10 ^ d := by
    rw [renderedQ, if_neg hd]
    split_ifs with hv
    · rw [neg_one_mul, abs_neg, abs_of_nonneg (by positivity)]
    · rw [one_mul, abs_of_nonneg (by positivity)]
  rw [habs, div_mul_cancel₀ _ (by positivity : ((10 : ℚ) ^ d) ≠ 0)]
  exact jsRound_natCast _

theorem render_renderedQ (v : ℚ) (sp : Bool) (d : ℕ)
    (h : d = 0 ∨ 0 ≤ v ∨ jsRound (|v| * 10 ^ d) ≠ 0) :
    number_format_value (renderedQ v d) ⟨sp, d⟩ = number_format_value v ⟨sp, d⟩ := by
  by_cases hd : d = 0
  · subst hd
    have hkey : jsRound (renderedQ v 0) = jsRound v := by
      rw [renderedQ, if_pos rfl]
      exact jsRound_intCast _
    cases sp
    · rw [nfv_dec0_nospace, nfv_dec0_nospace, hkey]
    · rw [nfv_dec0_space, nfv_dec0_space, hkey]
  · have h' : 0 ≤ v ∨ jsRound (|v| * 10 ^ d) ≠ 0 := by
      rcases h with h0 | h'
      · exact absurd h0 hd
      · exact h'
    have hsign := renderedQ_sign v d hd h'
    have hkey := renderedQ_key v d hd
    cases sp
    · rw [nfv_decpos_nospace _ d hd, nfv_decpos_nospace v d hd, hkey, Int.toNat_natCast]
      simp only [hsign]
    · rw [nfv_decpos_space _ d hd, nfv_decpos_space v d hd, hkey, Int.toNat_natCast]
      simp only [hsign]

/-- C1 counterexample: the value `-1/25` (within declared bounds `[-1, 1]`)
renders with one decimal as `"-0,0"` — `toFixed` takes the sign before
rounding — but parses back to `0`, which re-renders as `"0,0"`: the
round-trip is not the identity on the rendered string. -/
theorem number_roundtrip_counterexample :
    ((-1 : ℚ) ≤ -1 / 25 ∧ (-1 / 25 : ℚ) ≤ 1) ∧
    number_format_value (-1 / 25 : ℚ) ⟨false, 1⟩ = "-0,0".toList ∧
    number_value_parse (number_format_value (-1 / 25 : ℚ) ⟨false, 1⟩) = some 0 ∧
    number_format_value (0 : ℚ) ⟨false, 1⟩ = "0,0".toList ∧
    ¬ ((number_value_parse (number_format_value (-1 / 25 : ℚ) ⟨false, 1⟩)).map
          (fun w => number_format_value w ⟨false, 1⟩)
        = some (number_format_value (-1 / 25 : ℚ) ⟨false, 1⟩)) := by
  have hv : (-1 / 25 : ℚ) < 0 := by norm_num
  have hn : jsRound (|(-1 / 25 : ℚ)| * 10 ^ 1) = 0 := by
    rw [jsRound, show |(-1 / 25 : ℚ)| * 10 ^ 1 + 1 / 2 = 9 / 10 from by
      rw [abs_of_neg hv]; norm_num]
    norm_num [Int.floor_eq_iff]
  have h0 : jsRound (|(0 : ℚ)| * 10 ^ 1) = 0 := by
    rw [jsRound, show |(0 : ℚ)| * 10 ^ 1 + 1 / 2 = 1 / 2 from by
      rw [abs_zero]; norm_num]
    exact floor_half_q
  have hzero : natToDigits 0 = ['0'] := by
    rw [natToDigits]
    rfl
  have h2 : number_format_value (-1 / 25 : ℚ) ⟨false, 1⟩ = "-0,0".toList := by
    rw [nfv_decpos_nospace _ 1 one_ne_zero, hn, if_pos hv,
      show (0 : ℤ).toNat / 10 ^ 1 = 0 from rfl,
      show (0 : ℤ).toNat % 10 ^ 1 = 0 from rfl, hzero]
    decide
  have h4 : number_format_value (0 : ℚ) ⟨false, 1⟩ = "0,0".toList := by
    rw [nfv_decpos_nospace _ 1 one_ne_zero, h0,
      if_neg (show ¬((0 : ℚ) < 0) from by norm_num),
      show (0 : ℤ).toNat / 10 ^ 1 = 0 from rfl,
      show (0 : ℤ).toNat % 10 ^ 1 = 0 from rfl, hzero]
    decide
  have h3 : number_value_parse (number_format_value (-1 / 25 : ℚ) ⟨false, 1⟩)
      = some 0 := by
    rw [parse_render]
    congr 1
    rw [renderedQ, if_neg (show (1 : ℕ) ≠ 0 from one_ne_zero), if_pos hv, hn]
    norm_num
  refine ⟨⟨by norm_num, by norm_num⟩, h2, h3, h4, ?_⟩
  rw [h3]
  simp only [Option.map_some']
  rw [h4, h2]
  intro hcontr
  exact absurd (Option.some.inj hcontr) (by decide)

/-- C1 (amended): rendering, re-parsing and re-rendering is the identity on
the rendered string for every value and display format, except negative
values that round to zero at the format's (positive) decimal precision —
those render as `"-0,0…"` but re-render without the sign. -/
theorem number_roundtrip_spec (v : ℚ) (fmt : NumberFormat)
    (h : fmt.decimals = 0 ∨ 0 ≤ v ∨ jsRound (|v| * 10 ^ fmt.decimals) ≠ 0) :
    (number_value_parse (number_format_value v fmt)).map
      (fun w => number_format_value w fmt) = some (number_format_value v fmt) := by
  obtain ⟨sp, d⟩ := fmt
  dsimp only at h
  rw [parse_render v sp d]
  simp only [Option.map_some']
  rw [render_renderedQ v sp d h]

theorem number_roundtrip_spec_witness :
    (number_value_parse (number_format_value (3 / 2 : ℚ) ⟨true, 2⟩)).map
      (fun w => number_format_value w ⟨true, 2⟩)
      = some (number_format_value (3 / 2 : ℚ) ⟨true, 2⟩) :=
  number_roundtrip_spec (3 / 2) ⟨true, 2⟩ (Or.inr (Or.inl (by norm_num)))

end Ankiety
